import Mathlib

/-!
# Verification of the gambling-bot economy engine

A shallow embedding of the repository's ledger, economy, reward, parsing and
game-outcome code (src/database/database.py, src/economy/economy.py,
src/economy/rewards.py, src/economy/shop.py, src/utils/helpers.py,
src/games/*.py, src/commands/game.py, src/commands/player.py,
src/commands/admin.py), together with theorems about the claimed properties.

Modelling conventions:
* SQLite tables become association lists keyed the way the queries key them;
  `INSERT` appends, `UPDATE ... WHERE` maps over matching rows.
* Timestamps are integer seconds (the code compares `datetime` values and
  subtracts them; only differences matter to the claims).
* Python strings are modelled as `List Char`.
* Randomness (coin flips, dice, shuffled decks, random bonuses) is passed in
  explicitly as parameters, so every operation is a pure state transformer.
* Python `float` arithmetic is modelled exactly where its rounding is
  observable (bet parsing): see `roundDouble` below, a full model of IEEE-754
  binary64 round-to-nearest-even on exact rationals. Where the code multiplies
  integers by exactly-representable dyadic constants (2.0, 2.5, 5.0, ...) the
  result is exact for every magnitude the bot can reach, and the embedding
  uses exact integer arithmetic with a comment at the site.
* Message strings and Discord embed formatting are presentation-only and are
  omitted from results.
-/

set_option maxRecDepth 4000

namespace GamblingBot

/-- A row of the `users` table (src/database/database.py, CREATE TABLE users).
Balances are `ℤ` because the code can store negative values (nothing clamps
`update_user_balance`); counters that the code only ever increases from their
non-negative defaults are `ℕ`.  The unused `last_yearly`/`last_overtime`
timestamps are omitted. -/
structure UserRow where
  balance : ℤ
  crypto_balance : ℤ
  total_winnings : ℕ
  total_losses : ℕ
  games_played : ℕ
  level : ℕ
  experience : ℕ
  prestige : ℕ
  last_daily : Option ℤ
  last_weekly : Option ℤ
  last_monthly : Option ℤ
  last_work : Option ℤ
  deriving Repr, DecidableEq

/-- Column defaults of the `users` table: balance 1000, everything else 0,
level 1, no reward claimed yet. -/
def defaultUser : UserRow :=
  { balance := 1000, crypto_balance := 0, total_winnings := 0, total_losses := 0
    games_played := 0, level := 1, experience := 0, prestige := 0, last_daily := none
    last_weekly := none, last_monthly := none, last_work := none }

/-- A row of the `game_stats` table. -/
structure GameStatRow where
  games_played : ℕ
  games_won : ℕ
  total_bet : ℕ
  total_won : ℕ
  best_streak : ℕ
  current_streak : ℕ
  deriving Repr, DecidableEq

/-- A row of the `transactions` table (audit log; never read back). -/
structure Txn where
  user_id : ℤ
  guild_id : ℤ
  transaction_type : List Char
  amount : ℤ
  description : List Char
  deriving Repr, DecidableEq

/-- The two currency columns `update_user_balance` can target. -/
inductive Currency where
  | balance
  | crypto_balance
  deriving Repr, DecidableEq

/-- The database state: one association list per table.  Keys mirror the
UNIQUE constraints used by the queries: users by (user_id, guild_id),
game stats by (user_id, guild_id, game_name), cooldowns by
(user_id, guild_id, command_name), inventory by (user_id, guild_id, item_id). -/
structure DB where
  users : List ((ℤ × ℤ) × UserRow)
  stats : List ((ℤ × ℤ × List Char) × GameStatRow)
  cooldowns : List ((ℤ × ℤ × List Char) × ℤ)
  items : List ((ℤ × ℤ × List Char) × ℤ)
  txns : List Txn
  deriving Repr, DecidableEq

def emptyDB : DB := ⟨[], [], [], [], []⟩

/-- `SELECT * FROM users WHERE user_id = ? AND guild_id = ?`. -/
def findUser (db : DB) (uid gid : ℤ) : Option UserRow :=
  (db.users.find? (fun p => p.1 = (uid, gid))).map (·.2)

/-- `UPDATE users SET ... WHERE user_id = ? AND guild_id = ?`:
applies `f` to every row with the key (a no-op when no row matches). -/
def updateUser (db : DB) (uid gid : ℤ) (f : UserRow → UserRow) : DB :=
  { db with users := db.users.map (fun p => if p.1 = (uid, gid) then (p.1, f p.2) else p) }

/-- `DatabaseManager.get_user`: return the row, or insert the default row
and return it (lazy creation on first reference). -/
def get_user (db : DB) (uid gid : ℤ) : UserRow × DB :=
  match findUser db uid gid with
  | some u => (u, db)
  | none => (defaultUser, { db with users := db.users ++ [((uid, gid), defaultUser)] })

/-- `DatabaseManager.add_transaction`: append-only insert. -/
def add_transaction (db : DB) (uid gid : ℤ) (ttype : List Char) (amount : ℤ)
    (descr : List Char) : DB :=
  { db with txns := db.txns ++ [⟨uid, gid, ttype, amount, descr⟩] }

/-- Read or write one currency column of a user row. -/
def UserRow.getCurrency (u : UserRow) : Currency → ℤ
  | .balance => u.balance
  | .crypto_balance => u.crypto_balance

def UserRow.addCurrency (u : UserRow) (ct : Currency) (amount : ℤ) : UserRow :=
  match ct with
  | .balance => { u with balance := u.balance + amount }
  | .crypto_balance => { u with crypto_balance := u.crypto_balance + amount }

/-- `DatabaseManager.update_user_balance`: `UPDATE users SET c = c + amount`
followed by a transaction record.  No check of any kind is made on the
resulting balance: the delta is applied unconditionally. -/
def update_user_balance (db : DB) (uid gid : ℤ) (amount : ℤ) (ct : Currency) : DB :=
  let db := updateUser db uid gid (fun u => u.addCurrency ct amount)
  add_transaction db uid gid
    (if 0 < amount then "credit".data else "debit".data) amount.natAbs "update".data

/-- `EconomyManager.get_user_balance` (the balance field only, which is all
the callers in scope use); creates the row when absent. -/
def get_user_balance (db : DB) (uid gid : ℤ) : ℤ × DB :=
  let (u, db) := get_user db uid gid
  (u.balance, db)

/-- `EconomyManager.can_afford`: `user[currency_type] >= amount`
(creating the row when absent). -/
def can_afford (db : DB) (uid gid : ℤ) (amount : ℤ) (ct : Currency) : Bool × DB :=
  let (u, db) := get_user db uid gid
  (amount ≤ u.getCurrency ct, db)

/-- `EconomyManager.deduct_balance`: deduct if affordable, else report failure
without touching the stored balance. -/
def deduct_balance (db : DB) (uid gid : ℤ) (amount : ℤ) (ct : Currency) : Bool × DB :=
  match can_afford db uid gid amount ct with
  | (true, db) => (true, update_user_balance db uid gid (-amount) ct)
  | (false, db) => (false, db)

/-- `EconomyManager.add_balance`: unconditional credit (or debit, for a
negative argument — the function forwards to `update_user_balance`). -/
def add_balance (db : DB) (uid gid : ℤ) (amount : ℤ) (ct : Currency) : DB :=
  update_user_balance db uid gid amount ct

/-- `EconomyManager.transfer_money`: check affordability, then debit the
sender and credit the recipient, then record two transfer transactions. -/
def transfer_money (db : DB) (fromUser toUser gid : ℤ) (amount : ℤ) : Bool × DB :=
  match can_afford db fromUser gid amount .balance with
  | (true, db) =>
    let (_, db) := deduct_balance db fromUser gid amount .balance
    let db := add_balance db toUser gid amount .balance
    let db := add_transaction db fromUser gid "transfer_out".data amount "to".data
    let db := add_transaction db toUser gid "transfer_in".data amount "from".data
    (true, db)
  | (false, db) => (false, db)

/-- `DatabaseManager.update_game_stats`.  The source reads the old row with
`SELECT *` and then uses `row[7]` and `row[6]` as the prior streak values;
with the column order of the CREATE TABLE those indices are `total_won` and
`total_bet`, so the streak arithmetic reads those columns (faithfully
reproduced here; no claim depends on the streak fields). -/
def update_game_stats (db : DB) (uid gid : ℤ) (game : List Char) (won : Bool)
    (bet_amount win_amount : ℕ) : DB :=
  match db.stats.find? (fun p => p.1 = (uid, gid, game)) with
  | some p =>
    let row := p.2
    let current_streak := if won then row.total_won + 1 else 0
    let best_streak := max row.total_bet current_streak
    { db with stats := db.stats.map (fun q =>
        if q.1 = (uid, gid, game) then
          (q.1, { games_played := q.2.games_played + 1
                  games_won := q.2.games_won + (if won then 1 else 0)
                  total_bet := q.2.total_bet + bet_amount
                  total_won := q.2.total_won + win_amount
                  best_streak := best_streak
                  current_streak := current_streak })
        else q) }
  | none =>
    { db with stats := db.stats ++
        [((uid, gid, game),
          { games_played := 1, games_won := if won then 1 else 0
            total_bet := bet_amount, total_won := win_amount
            best_streak := if won then 1 else 0
            current_streak := if won then 1 else 0 })] }

/-- `EconomyManager.process_game_result`.  Deducts the bet (raising
`ValueError` — here a `none` first component — when unaffordable), credits
the winnings **only when `won` is true and `win_amount > 0`**, updates the
per-game stats and the lifetime totals.  Returns the credited total (`none`
for the raise) together with the state. -/
def process_game_result (db : DB) (uid gid : ℤ) (game : List Char)
    (bet_amount : ℕ) (won : Bool) (win_amount : ℕ) : Option ℕ × DB :=
  match deduct_balance db uid gid bet_amount .balance with
  | (false, db) => (none, db)
  | (true, db) =>
    let (total_return, db) :=
      if won ∧ 0 < win_amount then (win_amount, add_balance db uid gid win_amount .balance)
      else (0, db)
    let db := update_game_stats db uid gid game won bet_amount win_amount
    let db :=
      if won then
        updateUser db uid gid (fun u =>
          { u with total_winnings := u.total_winnings + win_amount
                   games_played := u.games_played + 1 })
      else
        updateUser db uid gid (fun u =>
          { u with total_losses := u.total_losses + bet_amount
                   games_played := u.games_played + 1 })
    (some total_return, db)

/-- `EconomyManager.calculate_level_and_xp`:
`new_level = int(math.sqrt(new_xp / 100)) + 1`.  In exact arithmetic
`⌊√(x/100)⌋ = ⌊√⌊x/100⌋⌋` for naturals, so the float square root is modelled
by `Nat.sqrt` on the floor division (binary64 `sqrt` is correctly rounded and
cannot cross an integer boundary at these magnitudes). -/
def calculate_level_and_xp (db : DB) (uid gid : ℤ) (xp_gained : ℕ) :
    DB × Bool × ℕ :=
  match findUser db uid gid with
  | none => (db, false, 0)
  | some u =>
    let new_xp := u.experience + xp_gained
    let new_level := Nat.sqrt (new_xp / 100) + 1
    let level_up := u.level < new_level
    let db := updateUser db uid gid (fun v =>
      { v with experience := new_xp, level := new_level })
    (db, level_up, new_level)

/-- `DatabaseManager.set_cooldown`: `INSERT OR REPLACE` of the expiry
`now + duration`. -/
def db_set_cooldown (db : DB) (uid gid : ℤ) (command : List Char)
    (now duration : ℤ) : DB :=
  { db with cooldowns :=
      (db.cooldowns.filter (fun p => ¬ p.1 = (uid, gid, command))) ++
      [((uid, gid, command), now + duration)] }

/-- `DatabaseManager.check_cooldown`: remaining seconds when the stored
expiry is in the future; otherwise `none`, deleting an expired row. -/
def db_check_cooldown (db : DB) (uid gid : ℤ) (command : List Char) (now : ℤ) :
    Option ℤ × DB :=
  match (db.cooldowns.find? (fun p => p.1 = (uid, gid, command))).map (·.2) with
  | some expires_at =>
    if now < expires_at then (some (expires_at - now), db)
    else
      let remaining := db.cooldowns.filter (fun p => ¬ p.1 = (uid, gid, command))
      (none, { db with cooldowns := remaining })
  | none => (none, db)

/-- The static duration table of `CooldownManager` (src/utils/cooldowns.py),
restricted to the commands the claims exercise. -/
def cooldownDuration (command : List Char) : Option ℤ :=
  if command = "daily".data then some 86400
  else if command = "gamble".data then some 60
  else if command = "slots".data then some 30
  else if command = "blackjack".data then some 45
  else if command = "coinflip".data then some 15
  else if command = "dice".data then some 20
  else none

/-- `CooldownManager.set_cooldown`: look the duration up in the static table;
unknown commands are a no-op returning `false`. -/
def set_cooldown (db : DB) (uid gid : ℤ) (command : List Char) (now : ℤ) :
    Bool × DB :=
  match cooldownDuration command with
  | some d => (true, db_set_cooldown db uid gid command now d)
  | none => (false, db)

/-- Result of `RewardManager.claim_daily_reward`. -/
structure DailyResult where
  success : Bool
  reward : ℕ
  crypto_reward : ℕ
  deriving Repr, DecidableEq

/-- `RewardManager.claim_daily_reward`.  The gate is
`utcnow() - last_daily < timedelta(hours=20)` — a **20-hour** window (the
source comment says "20 hour cooldown"), although the "next reward in ..."
message is computed against 24 hours.  The streak is stubbed to 1, so the
streak bonus is the constant `min (1*25) 500`.  `random_bonus`
(`randint(0, 50)`) and `crypto_reward` (0, or `randint(1, 5)` with 5%
probability) are passed in as parameters. -/
def claim_daily_reward (db : DB) (uid gid : ℤ) (now : ℤ)
    (random_bonus crypto_reward : ℕ) : DailyResult × DB :=
  let (user, db) := get_user db uid gid
  match user.last_daily with
  | some last_daily =>
    if now - last_daily < 20 * 3600 then
      ({ success := false, reward := 0, crypto_reward := 0 }, db)
    else
      claimDailyGrant db uid gid now random_bonus crypto_reward user
  | none => claimDailyGrant db uid gid now random_bonus crypto_reward user
where
  /-- The grant path: credit the computed total (and the crypto bonus when
  positive), then set `last_daily = now`. -/
  claimDailyGrant (db : DB) (uid gid : ℤ) (now : ℤ)
      (random_bonus crypto_reward : ℕ) (user : UserRow) : DailyResult × DB :=
    let base_reward := 100
    let level_bonus := user.level * 10
    let streak_bonus := min (1 * 25) 500
    let total_reward := base_reward + level_bonus + streak_bonus + random_bonus
    let db := update_user_balance db uid gid total_reward .balance
    let db := if 0 < crypto_reward then
        update_user_balance db uid gid crypto_reward .crypto_balance
      else db
    let db := updateUser db uid gid (fun u => { u with last_daily := some now })
    ({ success := true, reward := total_reward, crypto_reward := crypto_reward }, db)

/-! ## IEEE-754 binary64 model

`parse_bet_amount` (src/utils/helpers.py) computes percentages with Python
`float` arithmetic, whose rounding is observable in the results, so the
embedding models binary64 round-to-nearest-even exactly on rationals.
Exponents are unbounded (no overflow/underflow/subnormals): every value the
parser manipulates is 0 or has magnitude in `[10^-6, 10^308]`, where binary64
is normal and this model agrees with it bit for bit. -/

/-- Floor of a rational, computed as flooring division of numerator by
denominator. -/
def ratFloor (q : ℚ) : ℤ := q.num.fdiv q.den

/-- Round a rational to the nearest integer, ties to even. -/
def rhe (q : ℚ) : ℤ :=
  let fl := ratFloor q
  if q - fl < 1/2 then fl
  else if 1/2 < q - fl then fl + 1
  else if fl % 2 = 0 then fl else fl + 1

/-- Smallest `e` (within fuel) with `2^52 ≤ q * 2^e`. -/
def shiftUp (q : ℚ) : ℕ → ℕ
  | 0 => 0
  | f + 1 => if (2:ℚ)^52 ≤ q then 0 else shiftUp (2*q) f + 1

/-- Smallest `e` (within fuel) with `q / 2^e < 2^53`. -/
def shiftDown (q : ℚ) : ℕ → ℕ
  | 0 => 0
  | f + 1 => if q < (2:ℚ)^53 then 0 else shiftDown (q/2) f + 1

/-- Round a positive rational to 53 significant bits, nearest, ties to even:
scale into `[2^52, 2^53)`, round the scaled value to an integer, scale back. -/
def roundPos (q : ℚ) : ℚ :=
  if (2:ℚ)^52 ≤ q then
    let e := shiftDown q 4000
    (rhe (q / 2^e) : ℚ) * 2^e
  else
    let e := shiftUp q 4000
    (rhe (q * 2^e) : ℚ) / 2^e

/-- The binary64 value nearest to the rational `q` (ties to even). -/
def roundDouble (q : ℚ) : ℚ :=
  if q < 0 then -(roundPos (-q)) else if q = 0 then 0 else roundPos q

/-- Binary64 multiplication: exact product, then one rounding. -/
def pyMul (x y : ℚ) : ℚ := roundDouble (x * y)

/-- Binary64 division: exact quotient, then one rounding. -/
def pyDiv (x y : ℚ) : ℚ := roundDouble (x / y)

/-- Python `int()` applied to a float value: truncation toward zero. -/
def pyTrunc (q : ℚ) : ℤ := q.num.tdiv q.den

/-! ## Python string helpers (ASCII fragment)

`parse_bet_amount` lowercases and strips its input and parses `int`/`float`
literals.  The embedding covers the ASCII fragment the bet grammar uses:
optionally signed digit strings for `int`, optionally signed
`digits [. digits]` for `float` (exponent forms, `inf`/`nan` and `_` digit
grouping are outside the modelled grammar). -/

def pyLowerChar (c : Char) : Char :=
  if 'A' ≤ c ∧ c ≤ 'Z' then Char.ofNat (c.toNat + 32) else c

def pyLower (s : List Char) : List Char := s.map pyLowerChar

def isSpaceChar (c : Char) : Bool :=
  c = ' ' ∨ c = '\t' ∨ c = '\n' ∨ c = '\r' ∨ c.toNat = 11 ∨ c.toNat = 12

/-- Python `str.strip()`. -/
def pyStrip (s : List Char) : List Char :=
  ((s.dropWhile isSpaceChar).reverse.dropWhile isSpaceChar).reverse

/-- Numeric value of a digit string. -/
def digitsVal (s : List Char) : ℕ := s.foldl (fun n c => 10 * n + (c.toNat - 48)) 0

/-- Python `int(s)` on a stripped string: optional sign, then digits. -/
def pyParseInt : List Char → Option ℤ
  | [] => none
  | c :: rest =>
    if c = '+' then
      if rest ≠ [] ∧ rest.all Char.isDigit then some (digitsVal rest) else none
    else if c = '-' then
      if rest ≠ [] ∧ rest.all Char.isDigit then some (-(digitsVal rest : ℤ)) else none
    else if (c :: rest).all Char.isDigit then some ((digitsVal (c :: rest) : ℤ))
    else none

/-- Exact rational value of an unsigned decimal literal
(`digits`, `digits.digits`, `digits.`, `.digits`). -/
def pyParseFloatMag (s : List Char) : Option ℚ :=
  match s.splitOn '.' with
  | [intp] => if intp ≠ [] ∧ intp.all Char.isDigit then some (digitsVal intp) else none
  | [intp, frac] =>
    if (intp ++ frac) ≠ [] ∧ intp.all Char.isDigit ∧ frac.all Char.isDigit then
      some ((digitsVal intp : ℚ) + (digitsVal frac : ℚ) / 10 ^ frac.length)
    else none
  | _ => none

/-- Exact rational value of a decimal `float` literal with optional sign.
(`float(s)` is `roundDouble` of this value.) -/
def pyParseFloat : List Char → Option ℚ
  | [] => none
  | c :: rest =>
    if c = '+' then pyParseFloatMag rest
    else if c = '-' then (pyParseFloatMag rest).map (fun q => -q)
    else pyParseFloatMag (c :: rest)

/-- Is the last character of `b` equal to `c` (Python `s.endswith(c)` for the
one-character suffixes used by the parser)? -/
def lastIs (b : List Char) (c : Char) : Bool := b.getLast? = some c

/-- The `<n>%` computation of `parse_bet_amount`:
`int(user_balance * (percentage / 100))` in binary64, where `pf` is the
already-converted float value of the percentage. -/
def pyPercent (user_balance : ℤ) (pf : ℚ) : ℤ :=
  pyTrunc (pyMul (roundDouble user_balance) (pyDiv pf 100))

/-- `parse_bet_amount` (src/utils/helpers.py).  `none` models the
`ValueError` raised for unparseable input.  The `%`/`k`/`m` branches fall
through to the final `int(bet_input)` attempt when their `float` conversion
fails or (for `%`) the value is out of range, exactly as the `try/except
pass` control flow does. -/
def parse_bet_amount (bet_input : List Char) (user_balance : ℤ) : Option ℤ :=
  let b := pyStrip (pyLower bet_input)
  if b = "all".data ∨ b = "max".data then some user_balance
  else if b = "half".data ∨ b = "50%".data then some (Int.fdiv user_balance 2)
  else if b = "quarter".data ∨ b = "25%".data then some (Int.fdiv user_balance 4)
  else
    let tryInt : Option ℤ := pyParseInt b
    if lastIs b '%' then
      match pyParseFloat b.dropLast with
      | some q =>
        let pf := roundDouble q
        if 0 ≤ pf ∧ pf ≤ 100 then some (pyPercent user_balance pf) else tryInt
      | none => tryInt
    else if lastIs b 'k' then
      match pyParseFloat b.dropLast with
      | some q => some (pyTrunc (pyMul (roundDouble q) 1000))
      | none => tryInt
    else if lastIs b 'm' then
      match pyParseFloat b.dropLast with
      | some q => some (pyTrunc (pyMul (roundDouble q) 1000000))
      | none => tryInt
    else tryInt

/-- The bet grammar of the C9 claim as amended, written from the claim's
words, on a normalized (lowercased, stripped) input: `all`/`max` give the
full balance, `half`/`50%` its floor half, `quarter`/`25%` its floor
quarter; `<n>%` with the converted value in `[0, 100]` gives the binary64
truncation `int(balance * (n/100))`; `<n>k` and `<n>m` give exactly
`n * 1000` and `n * 1000000` for integral `n` of double magnitude (decimal
shorthand values go through binary64 the same way the source computes them);
a literal integer gives its value; everything else is a validation error. -/
def claimParse (b : List Char) (user_balance : ℤ) : Option ℤ :=
  if b = "all".data ∨ b = "max".data then some user_balance
  else if b = "half".data ∨ b = "50%".data then some (Int.fdiv user_balance 2)
  else if b = "quarter".data ∨ b = "25%".data then some (Int.fdiv user_balance 4)
  else if lastIs b '%' then
    match pyParseFloat b.dropLast with
    | some q =>
      let pf := roundDouble q
      if 0 ≤ pf ∧ pf ≤ 100 then some (pyPercent user_balance pf) else none
    | none => none
  else if lastIs b 'k' then
    match pyParseFloat b.dropLast with
    | some q =>
      if q.den = 1 ∧ |q.num| * 1000 < 2^53 then some (q.num * 1000)
      else some (pyTrunc (pyMul (roundDouble q) 1000))
    | none => none
  else if lastIs b 'm' then
    match pyParseFloat b.dropLast with
    | some q =>
      if q.den = 1 ∧ |q.num| * 1000000 < 2^53 then some (q.num * 1000000)
      else some (pyTrunc (pyMul (roundDouble q) 1000000))
    | none => none
  else pyParseInt b

/-! ## Game outcome generators

Randomness (the coin, the dice, the shuffled deck order, the slot reels) is
passed in as explicit parameters; the generators are otherwise translated
branch for branch from src/games/.  `GameResult` mirrors the dataclass in
src/database/models.py minus the display-only `message`/`details` fields. -/

structure GameResult where
  won : Bool
  amount_won : ℕ
  multiplier : ℚ := 1
  deriving Repr, DecidableEq

inductive Coin where
  | heads
  | tails
  deriving Repr, DecidableEq

/-- `play_coinflip` (src/games/coinflip.py).  An invalid prediction returns
`GameResult(won=False, amount_won=0)` carrying only an "Invalid prediction"
message — it is not an exception and not otherwise distinguishable from a
loss by the processing pipeline. -/
def play_coinflip (prediction : List Char) (bet_amount : ℕ) (flip : Coin) :
    GameResult :=
  let p := pyLower prediction
  if ¬ (p = "heads".data ∨ p = "tails".data ∨ p = "h".data ∨ p = "t".data) then
    { won := false, amount_won := 0 }
  else
    let pred : Coin := if p = "h".data ∨ p = "heads".data then .heads else .tails
    if pred = flip then
      { won := true, amount_won := bet_amount * 2, multiplier := 2 }
    else
      { won := false, amount_won := 0 }

/-- The exact-match multiplier table of `play_dice_roll`. -/
def diceExactMult (target : ℕ) : ℕ :=
  if target = 2 ∨ target = 12 then 35
  else if target = 3 ∨ target = 11 then 17
  else if target = 4 ∨ target = 10 then 11
  else if target = 5 ∨ target = 9 then 8
  else if target = 6 ∨ target = 8 then 6
  else if target = 7 then 5
  else 0

/-- `play_dice_roll` (src/games/dice.py) at its default `dice_count = 2`,
with the two uniform draws passed in.  The float multipliers (2.0 … 35.0)
are integral and exactly representable, and `int(bet * m)` is exact for any
bet the bot can reach, so winnings are `m * bet` in `ℕ`. -/
def play_dice_roll (prediction : List Char) (bet_amount : ℕ) (d1 d2 : ℕ) :
    GameResult :=
  let total := d1 + d2
  let p := pyLower prediction
  if p = "high".data ∧ 8 ≤ total then
    { won := true, amount_won := bet_amount * 2, multiplier := 2 }
  else if p = "low".data ∧ total ≤ 6 then
    { won := true, amount_won := bet_amount * 2, multiplier := 2 }
  else if p = "lucky7".data ∧ total = 7 then
    { won := true, amount_won := bet_amount * 5, multiplier := 5 }
  else if p ≠ [] ∧ p.all Char.isDigit then
    let target := digitsVal p
    if 2 ≤ target ∧ target ≤ 12 ∧ total = target then
      { won := true, amount_won := bet_amount * diceExactMult target
        multiplier := diceExactMult target }
    else { won := false, amount_won := 0 }
  else { won := false, amount_won := 0 }

/-- The C7 claim's win condition, written from the claim's words over the
(case-normalized) prediction and the dice sum. -/
def claimDiceWins (p : List Char) (s : ℕ) : Bool :=
  if p = "high".data then 8 ≤ s
  else if p = "low".data then s ≤ 6
  else if p = "lucky7".data then s = 7
  else if p ≠ [] ∧ p.all Char.isDigit then
    let n := digitsVal p
    2 ≤ n ∧ n ≤ 12 ∧ s = n
  else false

/-- The C7 claim's multiplier, written from the claim's words. -/
def claimDiceMult (p : List Char) : ℕ :=
  if p = "high".data ∨ p = "low".data then 2
  else if p = "lucky7".data then 5
  else diceExactMult (digitsVal p)

/-! ### Slots -/

inductive SlotSymbol where
  | cherry
  | lemon
  | orange
  | grape
  | bell
  | star
  | diamond
  | jackpot
  deriving Repr, DecidableEq, Fintype

/-- Per-symbol payout multipliers of `SlotMachine.symbols`. -/
def symbolPayout : SlotSymbol → ℕ
  | .cherry => 2
  | .lemon => 3
  | .orange => 4
  | .grape => 5
  | .bell => 8
  | .star => 12
  | .diamond => 20
  | .jackpot => 50

/-- The `payout_multiplier` computed by `SlotMachine.calculate_payout`
(src/games/slots.py) on a spin of three symbols.  `len(symbol_counts)` is
the number of distinct symbols; a two-of-a-kind pays 30% of the symbol
whose count is 2 (the dict iteration finds exactly one such symbol on a
3-reel spin).  The float literal `0.3` is modelled as the exact `3/10`
(binary64 `0.3` is below `3/10` by about `4·10^-18`, and `int(bet*(p*0.3))`
agrees with the exact computation for every payout `p` in the table and
every bet below `2^49`). -/
def slotsMult (a b c : SlotSymbol) : ℚ :=
  let symbols := [a, b, c]
  let distinct := symbols.dedup.length
  if distinct = 1 then symbolPayout a
  else if distinct = 2 then
    match symbols.dedup.find? (fun s => symbols.count s = 2) with
    | some s => (symbolPayout s : ℚ) * (3 / 10)
    | none => 0
  else if symbols.contains .cherry ∧ symbols.contains .lemon ∧
      symbols.contains .orange then 5
  else if symbols.contains .bell ∧ symbols.contains .star ∧
      symbols.contains .diamond then 15
  else 0

/-- The returned pair of `calculate_payout`:
`int(bet_amount * payout_multiplier) if payout_multiplier > 0 else 0`
together with the multiplier itself. -/
def calculate_payout (a b c : SlotSymbol) (bet_amount : ℕ) : ℕ × ℚ :=
  let m := slotsMult a b c
  (if 0 < m then (ratFloor ((bet_amount : ℚ) * m)).toNat else 0, m)

/-- The C6 claim's multiplier table, written from the claim's words: a triple
pays the symbol's multiplier; exactly two of a kind pays 30% of the paired
symbol's multiplier; the two special three-symbol sets (any order, only when
not already a pair or triple) pay 5 and 15; anything else pays 0. -/
def claimSlotsMult (a b c : SlotSymbol) : ℚ :=
  if a = b ∧ b = c then symbolPayout a
  else if a = b then (symbolPayout a : ℚ) * (3 / 10)
  else if b = c then (symbolPayout b : ℚ) * (3 / 10)
  else if a = c then (symbolPayout a : ℚ) * (3 / 10)
  else if ({a, b, c} : Multiset SlotSymbol) = {.cherry, .lemon, .orange} then 5
  else if ({a, b, c} : Multiset SlotSymbol) = {.bell, .star, .diamond} then 15
  else 0

/-! ### Blackjack -/

inductive Rank where
  | r2 | r3 | r4 | r5 | r6 | r7 | r8 | r9 | r10
  | jack | queen | king | ace
  deriving Repr, DecidableEq

/-- `Card._calculate_value`: faces are 10, aces enter as 11.  Suits affect
only the display strings and are omitted. -/
def cardValue : Rank → ℕ
  | .r2 => 2 | .r3 => 3 | .r4 => 4 | .r5 => 5 | .r6 => 6 | .r7 => 7
  | .r8 => 8 | .r9 => 9 | .r10 => 10
  | .jack => 10 | .queen => 10 | .king => 10
  | .ace => 11

/-- The ace adjustment loop of `BlackjackHand.calculate_value`:
while the total exceeds 21 and aces remain, count one ace as 1 instead of 11. -/
def adjustAces : ℕ → ℕ → ℕ
  | v, 0 => v
  | v, a + 1 => if 21 < v then adjustAces (v - 10) a else v

/-- `BlackjackHand.calculate_value`. -/
def handValue (hand : List Rank) : ℕ :=
  adjustAces ((hand.map cardValue).sum) (hand.count .ace)

/-- `BlackjackHand.is_blackjack`: 21 from exactly two cards. -/
def isBlackjack (hand : List Rank) : Bool :=
  hand.length = 2 ∧ handValue hand = 21

/-- `BlackjackHand.is_bust`. -/
def isBust (hand : List Rank) : Bool := 21 < handValue hand

/-- The hit loop shared by the auto-played player strategy and
`BlackjackGame.dealer_play`: hit while the hand value is below 17.  The deck
list is in draw order (Python pops from the end of its list, so this list is
the reverse of the Python one).  `none` models the deck running out with the
value still below 17 (`hit` then does nothing and the Python loop never
terminates). -/
def hitWhileUnder17 (hand : List Rank) : List Rank → Option (List Rank × List Rank)
  | [] => if 17 ≤ handValue hand then some (hand, []) else none
  | c :: rest =>
    if 17 ≤ handValue hand then some (hand, c :: rest)
    else hitWhileUnder17 (hand ++ [c]) rest

/-- Dealing and play order of `play_blackjack`: the initial deal alternates
player, dealer, player, dealer; the player auto-plays (hit under 17); the
dealer plays only when the player has not busted. -/
def dealHands (deck : List Rank) : Option (List Rank × List Rank) :=
  match deck with
  | p1 :: d1 :: p2 :: d2 :: rest =>
    match hitWhileUnder17 [p1, p2] rest with
    | none => none
    | some (player, rest) =>
      if isBust player then some (player, [d1, d2])
      else (hitWhileUnder17 [d1, d2] rest).map (fun q => (player, q.1))
  | _ => none

/-- `BlackjackGame.determine_winner` (src/games/blackjack.py): the resolution
cascade.  `int(bet_amount * 2.5)` is `(bet * 5) / 2` exactly (2.5 is dyadic
and the product is exact in binary64 for every bet below `2^51`); losses
leave the dataclass default `multiplier = 1.0`. -/
def determine_winner (player dealer : List Rank) (bet_amount : ℕ) : GameResult :=
  if isBust player then
    { won := false, amount_won := 0 }
  else if isBlackjack player ∧ ¬ isBlackjack dealer then
    { won := true, amount_won := bet_amount * 5 / 2, multiplier := 5/2 }
  else if isBust dealer then
    { won := true, amount_won := bet_amount * 2, multiplier := 2 }
  else if isBlackjack player ∧ isBlackjack dealer then
    { won := false, amount_won := bet_amount, multiplier := 1 }
  else if handValue dealer < handValue player then
    { won := true, amount_won := bet_amount * 2, multiplier := 2 }
  else if handValue player < handValue dealer then
    { won := false, amount_won := 0 }
  else
    { won := false, amount_won := bet_amount, multiplier := 1 }

/-- `play_blackjack` on a fixed deck order: deal and auto-play, then resolve.
Returns the final hands and the result. -/
def playBlackjack (deck : List Rank) (bet_amount : ℕ) :
    Option (List Rank × List Rank × GameResult) :=
  (dealHands deck).map (fun q => (q.1, q.2, determine_winner q.1 q.2 bet_amount))

/-- The C5 claim's outcome classification. -/
inductive BJOutcome where
  | win (payout : ℕ)
  | push
  | loss
  deriving Repr, DecidableEq

/-- The C5 claim's resolution cascade, written from the claim's words:
player bust → loss; player blackjack and dealer not → win ⌊2.5·bet⌋;
dealer bust (player not bust) → win 2·bet; both blackjack → push;
higher player total → win 2·bet; equal totals → push; otherwise loss. -/
def claimResolve (player dealer : List Rank) (bet : ℕ) : BJOutcome :=
  if 21 < handValue player then .loss
  else if isBlackjack player ∧ ¬ isBlackjack dealer then .win (5 * bet / 2)
  else if 21 < handValue dealer ∧ ¬ (21 < handValue player) then .win (2 * bet)
  else if isBlackjack player ∧ isBlackjack dealer then .push
  else if handValue dealer < handValue player then .win (2 * bet)
  else if handValue player = handValue dealer then .push
  else .loss

/-- The C5 claim's whole-game outcome: the claim's hit policies (which are
the source's policies, shared through `dealHands`) followed by the claim's
resolution cascade. -/
def claimBlackjack (deck : List Rank) (bet : ℕ) : Option BJOutcome :=
  (dealHands deck).map (fun q => claimResolve q.1 q.2 bet)

/-- Classify a `GameResult` of the blackjack generator: a win carries its
payout; for non-wins a zero `amount_won` is a loss and a returned stake is a
push (faithful for positive bets). -/
def resultOutcome (r : GameResult) : BJOutcome :=
  if r.won then .win r.amount_won
  else if r.amount_won = 0 then .loss
  else .push

/-! ## The wager command pipeline (src/commands/game.py) -/

/-- The typed rejections of `GameCommands._validate_bet`. -/
inductive Reject where
  | invalidBet
  | belowMinimum
  | insufficientFunds
  | onCooldown
  deriving Repr, DecidableEq

/-- `GameCommands.min_bets` with its `.get(game, 1)` default. -/
def minBet (game : List Char) : ℤ :=
  if game = "blackjack".data then 10
  else if game = "coinflip".data then 1
  else if game = "slots".data then 5
  else if game = "dice".data then 1
  else if game = "gamble".data then 1
  else 1

/-- `GameCommands._validate_bet`: read the balance (creating the account on
first reference), parse the bet, check the game minimum, the balance and the
cooldown, in that order.  With integer-second timestamps a stored unexpired
cooldown always has at least 1 second remaining, so the truthiness test on
the remaining seconds is a `some`-test. -/
def validate_bet (db : DB) (uid gid : ℤ) (bet_input game : List Char)
    (now : ℤ) : Except Reject ℕ × DB :=
  let (user_balance, db) := get_user_balance db uid gid
  match parse_bet_amount bet_input user_balance with
  | none => (.error .invalidBet, db)
  | some bet_amount =>
    if bet_amount < minBet game then (.error .belowMinimum, db)
    else if user_balance < bet_amount then (.error .insufficientFunds, db)
    else
      match db_check_cooldown db uid gid game now with
      | (some _, db) => (.error .onCooldown, db)
      | (none, db) => (.ok bet_amount.toNat, db)

/-- `GameCommands._process_game_result`: settle the wager economically, arm
the cooldown, then grant experience `5 + bet div 100` (doubled on a win) and
recompute the level.  The `Bool` reports whether settlement succeeded (the
`ValueError` from an unaffordable bet is caught and reported, with no
further steps). -/
def game_process (db : DB) (uid gid : ℤ) (game : List Char) (bet_amount : ℕ)
    (result : GameResult) (set_cd : Bool) (now : ℤ) : Bool × DB :=
  match process_game_result db uid gid game bet_amount result.won result.amount_won with
  | (none, db) => (false, db)
  | (some _, db) =>
    let db := if set_cd then (set_cooldown db uid gid game now).2 else db
    let xp_gained := 5 + bet_amount / 100
    let xp_gained := if result.won then xp_gained * 2 else xp_gained
    let (db, _, _) := calculate_level_and_xp db uid gid xp_gained
    (true, db)

/-- `GameCommands.coinflip`: validate the bet, play the flip, process the
result.  Note the prediction string is **not** validated before the wager is
settled: `play_coinflip` turns an invalid prediction into a `won = False`
result that flows into `_process_game_result` like any loss. -/
def coinflip_command (db : DB) (uid gid : ℤ) (prediction bet_input : List Char)
    (flip : Coin) (now : ℤ) : Except Reject Bool × DB :=
  match validate_bet db uid gid bet_input "coinflip".data now with
  | (.error r, db) => (.error r, db)
  | (.ok bet_amount, db) =>
    let result := play_coinflip prediction bet_amount flip
    let (_, db) := game_process db uid gid "coinflip".data bet_amount result true now
    (.ok result.won, db)

/-! ## Leaderboard (src/database/database.py, `get_leaderboard`) -/

/-- The whitelist of ORDER BY metrics. -/
def validCategories : List String :=
  ["balance", "crypto_balance", "total_winnings", "games_played", "level"]

/-- The value of a metric column for a user row (defaulting to the cash
balance, which is the only way the default is reached after the whitelist
check). -/
def metricValue (category : String) (u : UserRow) : ℤ :=
  if category = "crypto_balance" then u.crypto_balance
  else if category = "total_winnings" then u.total_winnings
  else if category = "games_played" then u.games_played
  else if category = "level" then u.level
  else u.balance

/-- Insert into a descending-sorted list, after any entries of equal value
(so the overall sort is stable: ties stay in table order, which is
insertion order — a deterministic model of the SQLite result order). -/
def insertDesc (x : ℤ × ℤ) : List (ℤ × ℤ) → List (ℤ × ℤ)
  | [] => [x]
  | y :: ys => if y.2 < x.2 then x :: y :: ys else y :: insertDesc x ys

/-- Stable insertion sort, descending by value. -/
def sortDesc : List (ℤ × ℤ) → List (ℤ × ℤ)
  | [] => []
  | x :: xs => insertDesc x (sortDesc xs)

/-- `DatabaseManager.get_leaderboard`: substitute `balance` for any metric
outside the whitelist, then return the guild's `(user_id, value)` pairs
ordered by the metric descending, limited to `limit`. -/
def get_leaderboard (db : DB) (gid : ℤ) (category : String) (limit : ℕ) :
    List (ℤ × ℤ) :=
  let cat := if category ∈ validCategories then category else "balance"
  let rows := (db.users.filter (fun p => p.1.2 = gid)).map
    (fun p => (p.1.1, metricValue cat p.2))
  (sortDesc rows).take limit

/-! ## Shop (src/economy/shop.py) and admin money commands
(src/commands/admin.py, src/commands/player.py) -/

structure ShopItem where
  price : ℕ
  currency_type : Currency
  max_quantity : ℤ
  deriving Repr, DecidableEq

/-- The static `SHOP_ITEMS` catalogue (src/database/models.py). -/
def getShopItem (item_id : List Char) : Option ShopItem :=
  if item_id = "luck_boost".data then some ⟨500, .balance, 5⟩
  else if item_id = "double_xp".data then some ⟨1000, .balance, 3⟩
  else if item_id = "daily_multiplier".data then some ⟨2000, .balance, 1⟩
  else if item_id = "lotto_ticket".data then some ⟨100, .balance, 50⟩
  else if item_id = "protection".data then some ⟨1500, .balance, 1⟩
  else none

/-- `ShopManager.get_user_items(...).get(item_id, 0)`. -/
def inventoryQty (db : DB) (uid gid : ℤ) (item_id : List Char) : ℤ :=
  match db.items.find? (fun p => p.1 = (uid, gid, item_id)) with
  | some p => p.2
  | none => 0

/-- `ShopManager.add_user_item`. -/
def add_user_item (db : DB) (uid gid : ℤ) (item_id : List Char) (quantity : ℤ) :
    DB :=
  match db.items.find? (fun p => p.1 = (uid, gid, item_id)) with
  | some _ =>
    { db with items := db.items.map (fun p =>
        if p.1 = (uid, gid, item_id) then (p.1, p.2 + quantity) else p) }
  | none => { db with items := db.items ++ [((uid, gid, item_id), quantity)] }

/-- `ShopManager.remove_user_item`: fail when the held quantity is below the
requested one; delete the row when it reaches zero. -/
def remove_user_item (db : DB) (uid gid : ℤ) (item_id : List Char)
    (quantity : ℤ) : Bool × DB :=
  match db.items.find? (fun p => p.1 = (uid, gid, item_id)) with
  | none => (false, db)
  | some p =>
    if p.2 < quantity then (false, db)
    else
      let new_quantity := p.2 - quantity
      if new_quantity ≤ 0 then
        (true, { db with items := db.items.filter (fun q => ¬ q.1 = (uid, gid, item_id)) })
      else
        (true, { db with items := db.items.map (fun q =>
          if q.1 = (uid, gid, item_id) then (q.1, new_quantity) else q) })

/-- `ShopManager.purchase_item`: unknown item, max-quantity breach or an
unaffordable total cost fail without mutation; otherwise debit the cost and
add the items. -/
def purchase_item (db : DB) (uid gid : ℤ) (item_id : List Char)
    (quantity : ℤ) : Bool × DB :=
  match getShopItem item_id with
  | none => (false, db)
  | some item =>
    if 0 < item.max_quantity ∧
        item.max_quantity < inventoryQty db uid gid item_id + quantity then
      (false, db)
    else
      let total_cost := (item.price : ℤ) * quantity
      let (user, db) := get_user db uid gid
      if user.getCurrency item.currency_type < total_cost then (false, db)
      else
        let db := update_user_balance db uid gid (-total_cost) item.currency_type
        let db := add_user_item db uid gid item_id quantity
        (true, db)

/-- `ShopManager.sell_item`: `int(price * 0.5) * quantity` is
`(price / 2) * quantity` exactly (0.5 is dyadic). -/
def sell_item (db : DB) (uid gid : ℤ) (item_id : List Char) (quantity : ℤ) :
    Bool × DB :=
  match getShopItem item_id with
  | none => (false, db)
  | some item =>
    if inventoryQty db uid gid item_id < quantity then (false, db)
    else
      let sell_price := ((item.price / 2 : ℕ) : ℤ) * quantity
      let (_, db) := remove_user_item db uid gid item_id quantity
      let db := update_user_balance db uid gid sell_price item.currency_type
      (true, db)

/-- The `/buy` command guard (`amount <= 0` is rejected) in front of
`purchase_item`. -/
def buy_command (db : DB) (uid gid : ℤ) (item_id : List Char) (amount : ℤ) :
    Bool × DB :=
  if amount ≤ 0 then (false, db) else purchase_item db uid gid item_id amount

/-- The `/sell` command guard in front of `sell_item`. -/
def sell_command (db : DB) (uid gid : ℤ) (item_id : List Char) (amount : ℤ) :
    Bool × DB :=
  if amount ≤ 0 then (false, db) else sell_item db uid gid item_id amount

/-- The `/send` command (src/commands/player.py): positive amounts only,
then `transfer_money`.  (The self/bot checks only compare identities and are
not balance-relevant.) -/
def send_command (db : DB) (fromUser toUser gid amount : ℤ) : Bool × DB :=
  if amount ≤ 0 then (false, db)
  else transfer_money db fromUser toUser gid amount

/-- `/give_money` (src/commands/admin.py): positive amounts only, then an
unconditional credit plus an `admin_gift` transaction. -/
def give_money (db : DB) (uid gid amount : ℤ) (ct : Currency) : Bool × DB :=
  if amount ≤ 0 then (false, db)
  else
    let db := update_user_balance db uid gid amount ct
    (true, add_transaction db uid gid "admin_gift".data amount "gift".data)

/-- `/take_money`: positive amounts only, checked against the current
balance before the debit. -/
def take_money (db : DB) (uid gid amount : ℤ) (ct : Currency) : Bool × DB :=
  if amount ≤ 0 then (false, db)
  else
    let (user, db) := get_user db uid gid
    if user.getCurrency ct < amount then (false, db)
    else
      let db := update_user_balance db uid gid (-amount) ct
      (true, add_transaction db uid gid "admin_deduct".data amount "deduct".data)

/-- `RewardManager.claim_weekly_reward` (7-day gate; bonuses from level and
games played; crypto reward `randint(5, 15)` passed in). -/
def claim_weekly_reward (db : DB) (uid gid now : ℤ) (crypto_reward : ℕ) :
    Bool × DB :=
  let (user, db) := get_user db uid gid
  let grant : DB → Bool × DB := fun db =>
    let total_reward := 1000 + user.level * 50 + min (user.games_played * 5) 2000
    let db := update_user_balance db uid gid total_reward .balance
    let db := update_user_balance db uid gid crypto_reward .crypto_balance
    (true, updateUser db uid gid (fun u => { u with last_weekly := some now }))
  match user.last_weekly with
  | some t => if now - t < 7 * 86400 then (false, db) else grant db
  | none => grant db

/-- `RewardManager.claim_monthly_reward` (30-day gate; bonuses from level and
prestige; crypto reward `randint(25, 50)` passed in; the special-item branch
is a `pass` in the source). -/
def claim_monthly_reward (db : DB) (uid gid now : ℤ) (crypto_reward : ℕ) :
    Bool × DB :=
  let (user, db) := get_user db uid gid
  let grant : DB → Bool × DB := fun db =>
    let total_reward := 5000 + user.level * 200 + user.prestige * 1000
    let db := update_user_balance db uid gid total_reward .balance
    let db := update_user_balance db uid gid crypto_reward .crypto_balance
    (true, updateUser db uid gid (fun u => { u with last_monthly := some now }))
  match user.last_monthly with
  | some t => if now - t < 30 * 86400 then (false, db) else grant db
  | none => grant db

/-- `RewardManager.claim_work_reward` (4-hour gate; the random job reward and
the 10%-chance bonus are passed in). -/
def claim_work_reward (db : DB) (uid gid now : ℤ) (base_reward bonus : ℕ) :
    Bool × DB :=
  let (user, db) := get_user db uid gid
  let grant : DB → Bool × DB := fun db =>
    let total_reward := base_reward + user.level * 5 + bonus
    let db := update_user_balance db uid gid total_reward .balance
    (true, updateUser db uid gid (fun u => { u with last_work := some now }))
  match user.last_work with
  | some t => if now - t < 4 * 3600 then (false, db) else grant db
  | none => grant db

/-! ## The operation alphabet for the C1 invariant

One constructor per balance-touching entry point reachable from the command
layer, each applying the corresponding embedded function (with the command
guards the source puts in front of it). -/

inductive Op where
  | getUser (uid gid : ℤ)
  | send (fromUser toUser gid amount : ℤ)
  | game (uid gid : ℤ) (game : List Char) (bet_amount win_amount : ℕ) (won : Bool)
  | coinflipOp (uid gid : ℤ) (prediction bet_input : List Char) (flip : Coin) (now : ℤ)
  | daily (uid gid now : ℤ) (random_bonus crypto_reward : ℕ)
  | weekly (uid gid now : ℤ) (crypto_reward : ℕ)
  | monthly (uid gid now : ℤ) (crypto_reward : ℕ)
  | work (uid gid now : ℤ) (base_reward bonus : ℕ)
  | buy (uid gid : ℤ) (item_id : List Char) (quantity : ℤ)
  | sellOp (uid gid : ℤ) (item_id : List Char) (quantity : ℤ)
  | give (uid gid amount : ℤ) (ct : Currency)
  | take (uid gid amount : ℤ) (ct : Currency)
  | levelXp (uid gid : ℤ) (xp_gained : ℕ)
  | armCooldown (uid gid : ℤ) (command : List Char) (now : ℤ)
  | pollCooldown (uid gid : ℤ) (command : List Char) (now : ℤ)

/-- Apply one operation to the store. -/
def applyOp (db : DB) : Op → DB
  | .getUser uid gid => (get_user db uid gid).2
  | .send fromUser toUser gid amount => (send_command db fromUser toUser gid amount).2
  | .game uid gid game bet win won => (process_game_result db uid gid game bet won win).2
  | .coinflipOp uid gid pred bet flip now => (coinflip_command db uid gid pred bet flip now).2
  | .daily uid gid now rnd cr => (claim_daily_reward db uid gid now rnd cr).2
  | .weekly uid gid now cr => (claim_weekly_reward db uid gid now cr).2
  | .monthly uid gid now cr => (claim_monthly_reward db uid gid now cr).2
  | .work uid gid now base bonus => (claim_work_reward db uid gid now base bonus).2
  | .buy uid gid item q => (buy_command db uid gid item q).2
  | .sellOp uid gid item q => (sell_command db uid gid item q).2
  | .give uid gid amount ct => (give_money db uid gid amount ct).2
  | .take uid gid amount ct => (take_money db uid gid amount ct).2
  | .levelXp uid gid xp => (calculate_level_and_xp db uid gid xp).1
  | .armCooldown uid gid cmd now => (set_cooldown db uid gid cmd now).2
  | .pollCooldown uid gid cmd now => (db_check_cooldown db uid gid cmd now).2

/-- The C1 invariant (amended): every stored cash and premium balance is
non-negative.  The key-uniqueness conjunct reflects the UNIQUE/PRIMARY KEY
constraint of the `users` table, which the association-list model preserves
because rows are only inserted on a failed lookup. -/
def Inv (db : DB) : Prop :=
  (db.users.map (·.1)).Nodup ∧
    ∀ p ∈ db.users, 0 ≤ p.2.balance ∧ 0 ≤ p.2.crypto_balance

/-! ## Association-list lemmas -/

theorem find?_map_update {α β : Type} [DecidableEq α] (l : List (α × β)) (k : α)
    (f : β → β) :
    (l.map (fun p => if p.1 = k then (p.1, f p.2) else p)).find? (fun p => p.1 = k)
      = (l.find? (fun p => p.1 = k)).map (fun p => (p.1, f p.2)) := by
  induction l with
  | nil => rfl
  | cons q l ih =>
    by_cases hq : q.1 = k
    · simp [List.find?_cons, hq]
    · simp [List.find?_cons, hq, ih]

theorem keys_map_update {α β : Type} [DecidableEq α] (l : List (α × β)) (k : α)
    (f : β → β) :
    (l.map (fun p => if p.1 = k then (p.1, f p.2) else p)).map (·.1) = l.map (·.1) := by
  induction l with
  | nil => rfl
  | cons q l ih =>
    by_cases hq : q.1 = k <;> simp [hq, ih]

theorem find?_eq_of_mem_nodup {α β : Type} [DecidableEq α] {l : List (α × β)}
    {p : α × β} {k : α} (h : (l.map (·.1)).Nodup) (hp : p ∈ l) (hk : p.1 = k) :
    l.find? (fun q => q.1 = k) = some p := by
  induction l with
  | nil => cases hp
  | cons q l ih =>
    rcases List.mem_cons.mp hp with rfl | hmem
    · simp [List.find?_cons, hk]
    · by_cases hq : q.1 = k
      · exfalso
        have hin : p.1 ∈ l.map (·.1) := List.mem_map_of_mem _ hmem
        rw [hk, ← hq] at hin
        exact (List.nodup_cons.mp h).1 hin
      · simpa [List.find?_cons, hq] using ih (List.nodup_cons.mp h).2 hmem

theorem get_user_found {db : DB} {uid gid : ℤ} {u : UserRow}
    (h : findUser db uid gid = some u) : get_user db uid gid = (u, db) := by
  unfold get_user
  rw [h]

theorem findUser_updateUser (db : DB) (uid gid : ℤ) (f : UserRow → UserRow) :
    findUser (updateUser db uid gid f) uid gid = (findUser db uid gid).map f := by
  unfold findUser updateUser
  rw [find?_map_update]
  cases db.users.find? (fun p => p.1 = (uid, gid)) <;> rfl

theorem findUser_add_transaction (db : DB) (x y : ℤ) (t : List Char) (a : ℤ)
    (d : List Char) (uid gid : ℤ) :
    findUser (add_transaction db x y t a d) uid gid = findUser db uid gid := rfl

theorem findUser_update_user_balance (db : DB) (uid gid : ℤ) (amount : ℤ)
    (ct : Currency) :
    findUser (update_user_balance db uid gid amount ct) uid gid
      = (findUser db uid gid).map (fun u => u.addCurrency ct amount) := by
  unfold update_user_balance
  rw [findUser_add_transaction, findUser_updateUser]

/-! ## Claim C3 — transfer atomicity on insufficient funds -/

/-- C3: whenever the sender's cash balance is below the requested amount,
`transfer_money` returns failure and the store is completely unchanged — in
particular neither the sender's nor the recipient's balance moves and no
transaction is recorded. -/
theorem c3_transfer_insufficient_unchanged (db : DB) (fromUser toUser gid amount : ℤ)
    (u : UserRow) (hu : findUser db fromUser gid = some u)
    (hlt : u.balance < amount) :
    transfer_money db fromUser toUser gid amount = (false, db) := by
  have hca : can_afford db fromUser gid amount .balance = (false, db) := by
    unfold can_afford
    rw [get_user_found hu]
    simp [UserRow.getCurrency, not_le.mpr hlt]
  unfold transfer_money
  rw [hca]

/-- Witness for C3 at a concrete store: a freshly created account holds 1000
and cannot send 2000. -/
theorem c3_transfer_insufficient_unchanged_witness :
    transfer_money ((get_user emptyDB 1 1).2) 1 2 1 2000 = (false, (get_user emptyDB 1 1).2) :=
  c3_transfer_insufficient_unchanged _ 1 2 1 2000 defaultUser
    (by with_unfolding_all decide) (by decide)

/-! ## Claim C2 — the stake of a push is never returned -/

/-- C2 (code bug evaluation): settling a blackjack push (`won = False`,
`amount_won = bet = 100`, as `determine_winner` produces for both-blackjack
and equal totals, whose messages read "Your bet is returned") on a fresh
account debits the stake and credits nothing: the credited total is 0 and
the balance drops from 1000 to 900, where the claim (net change `p − b = 0`)
requires 1000. -/
theorem c2_push_loses_stake :
    (process_game_result ((get_user emptyDB 1 1).2) 1 1 "blackjack".data 100 false 100).1
        = some 0 ∧
    (findUser (process_game_result ((get_user emptyDB 1 1).2) 1 1
        "blackjack".data 100 false 100).2 1 1).map (·.balance) = some 900 := by
  constructor <;> with_unfolding_all decide

/-! ## Claim C1 — negative-balance rejection -/

/-- C1 counterexample: `update_user_balance` — the spec's `adjustBalance` —
applies a debit of 2000 to a freshly created account holding 1000 without
any rejection: the stored balance afterwards is −1000 (negative, and
changed), where the claim requires a no-op leaving 1000. -/
theorem c1_counterexample :
    (findUser (update_user_balance ((get_user emptyDB 1 1).2) 1 1 (-2000) .balance) 1 1).map
        (·.balance) = some (-1000) := by
  with_unfolding_all decide

/-! ## Claim C8 — the daily-reward gate -/

/-- C8 counterexample: with the last daily claim recorded at time 0, a claim
22 hours later (79200 s) succeeds and credits the reward, although the claim
as stated requires rejection whenever less than 24 hours (86400 s) have
elapsed.  (The source gates on 20 hours; its comment reads "20 hour
cooldown".) -/
theorem c8_counterexample :
    ((claim_daily_reward (claim_daily_reward ((get_user emptyDB 1 1).2) 1 1 0 0 0).2
        1 1 79200 0 0).1).success = true ∧ (79200 : ℤ) < 86400 := by
  constructor
  · with_unfolding_all decide
  · decide

/-- C8 as amended: a daily claim is rejected — with no credit and no
timestamp update, the store fully unchanged — iff less than **20** hours
have elapsed since the recorded last claim; otherwise the reward
`100 + 10·level + 25 + random` is credited and `last_daily` becomes the
claim time.  (The "next reward in ..." text in the rejection message is the
only place 24 hours appears.) -/
theorem c8_daily_gate_20h (db : DB) (uid gid now : ℤ) (rnd cr : ℕ) (u : UserRow)
    (hu : findUser db uid gid = some u) :
    (∀ t, u.last_daily = some t → now - t < 20 * 3600 →
      claim_daily_reward db uid gid now rnd cr
        = ({ success := false, reward := 0, crypto_reward := 0 }, db)) ∧
    ((u.last_daily = none ∨ ∃ t, u.last_daily = some t ∧ 20 * 3600 ≤ now - t) →
      (claim_daily_reward db uid gid now rnd cr).1.success = true ∧
      (claim_daily_reward db uid gid now rnd cr).1.reward
          = 100 + u.level * 10 + 25 + rnd ∧
      ∃ v, findUser (claim_daily_reward db uid gid now rnd cr).2 uid gid = some v ∧
        v.balance = u.balance + (100 + u.level * 10 + 25 + rnd) ∧
        v.last_daily = some now) := by
  constructor
  · intro t ht hlt
    unfold claim_daily_reward
    rw [get_user_found hu]
    dsimp only
    rw [ht]
    dsimp only
    rw [if_pos hlt]
  · intro hgrant
    have hstep :
        claim_daily_reward db uid gid now rnd cr
          = claim_daily_reward.claimDailyGrant db uid gid now rnd cr u := by
      unfold claim_daily_reward
      rw [get_user_found hu]
      dsimp only
      rcases hgrant with hnone | ⟨t, ht, hge⟩
      · rw [hnone]
      · rw [ht]
        dsimp only
        rw [if_neg (not_lt.mpr hge)]
    rw [hstep]
    unfold claim_daily_reward.claimDailyGrant
    refine ⟨rfl, rfl, ?_⟩
    by_cases hcr : 0 < cr
    · simp only [hcr, if_true]
      rw [findUser_updateUser, findUser_update_user_balance,
        findUser_update_user_balance, hu]
      refine ⟨_, rfl, ?_, rfl⟩
      simp [UserRow.addCurrency]
    · simp only [hcr, if_false]
      rw [findUser_updateUser, findUser_update_user_balance, hu]
      refine ⟨_, rfl, ?_, rfl⟩
      simp [UserRow.addCurrency]

/-- Witness for C8: both branches exercised at concrete stores. -/
theorem c8_daily_gate_20h_witness :
    (claim_daily_reward (claim_daily_reward ((get_user emptyDB 1 1).2) 1 1 0 3 0).2
        1 1 3600 5 0).1.success = false ∧
    (claim_daily_reward ((get_user emptyDB 1 1).2) 1 1 0 3 0).1.reward = 138 := by
  constructor
  · have h := (c8_daily_gate_20h (claim_daily_reward ((get_user emptyDB 1 1).2) 1 1 0 3 0).2
      1 1 3600 5 0
      { balance := 1138, crypto_balance := 0, total_winnings := 0, total_losses := 0
        games_played := 0, level := 1, experience := 0, prestige := 0
        last_daily := some 0, last_weekly := none, last_monthly := none, last_work := none }
      (by with_unfolding_all decide)).1 0 rfl (by decide)
    rw [h]
  · have h := (c8_daily_gate_20h ((get_user emptyDB 1 1).2) 1 1 0 3 0 defaultUser
      (by with_unfolding_all decide)).2 (Or.inl rfl)
    rw [h.2.1]
    rfl

/-! ## Claim C4 — wager validation failures -/

theorem check_cooldown_some_unchanged {db db2 : DB} {uid gid : ℤ}
    {cmd : List Char} {now x : ℤ}
    (h : db_check_cooldown db uid gid cmd now = (some x, db2)) : db2 = db := by
  unfold db_check_cooldown at h
  cases hf : (db.cooldowns.find? (fun p => p.1 = (uid, gid, cmd))).map (·.2) with
  | none => rw [hf] at h; cases h
  | some expires_at =>
    rw [hf] at h
    dsimp only at h
    by_cases hlt : now < expires_at
    · rw [if_pos hlt] at h
      exact (congrArg Prod.snd h).symm
    · rw [if_neg hlt] at h
      have hfst := congrArg Prod.fst h
      simp at hfst

theorem validate_bet_error_unchanged {db db2 : DB} {uid gid : ℤ}
    {bet_input game : List Char} {now : ℤ} {u : UserRow} {r : Reject}
    (hu : findUser db uid gid = some u)
    (h : validate_bet db uid gid bet_input game now = (.error r, db2)) : db2 = db := by
  unfold validate_bet get_user_balance at h
  rw [get_user_found hu] at h
  dsimp only at h
  cases hp : parse_bet_amount bet_input u.balance with
  | none => rw [hp] at h; exact ((Prod.mk.injEq _ _ _ _).mp h).2.symm
  | some bet_amount =>
    rw [hp] at h
    dsimp only at h
    by_cases hmin : bet_amount < minBet game
    · rw [if_pos hmin] at h
      exact ((Prod.mk.injEq _ _ _ _).mp h).2.symm
    · rw [if_neg hmin] at h
      by_cases hbal : u.balance < bet_amount
      · rw [if_pos hbal] at h
        exact ((Prod.mk.injEq _ _ _ _).mp h).2.symm
      · rw [if_neg hbal] at h
        cases hc : db_check_cooldown db uid gid game now with
        | mk remaining db3 =>
          rw [hc] at h
          cases remaining with
          | none => cases h
          | some x =>
            have hd3 : db3 = db := check_cooldown_some_unchanged hc
            cases h
            exact hd3

/-- C4 as amended: every failure of the wager validation chain — unparseable
bet, bet below the game minimum, bet above the balance, or an armed cooldown
— returns a typed rejection (`invalidBet`, `belowMinimum`,
`insufficientFunds`, `onCooldown`) with the store completely unchanged: no
balance change, no stat or XP update, no cooldown armed.  Invalid **game
parameters** are different: the coinflip command does not reject them (see
the counterexample; an invalid prediction is settled as a lost wager). -/
theorem c4_validation_failure_pure (db : DB) (uid gid : ℤ)
    (prediction bet_input : List Char) (flip : Coin) (now : ℤ) (u : UserRow)
    (r : Reject) (hu : findUser db uid gid = some u)
    (h : (coinflip_command db uid gid prediction bet_input flip now).1 = .error r) :
    (coinflip_command db uid gid prediction bet_input flip now).2 = db := by
  unfold coinflip_command at h ⊢
  cases hv : validate_bet db uid gid bet_input "coinflip".data now with
  | mk res db2 =>
    cases res with
    | error r2 =>
      simp only [hv]
      exact validate_bet_error_unchanged hu hv
    | ok bet =>
      simp only [hv] at h
      cases h

/-- Witness for C4: a bet of 5000 against a balance of 1000 is rejected and
the store is untouched. -/
theorem c4_validation_failure_pure_witness :
    (coinflip_command ((get_user emptyDB 1 1).2) 1 1 "heads".data "5000".data
        Coin.heads 0).2 = (get_user emptyDB 1 1).2 :=
  c4_validation_failure_pure _ 1 1 "heads".data "5000".data Coin.heads 0
    defaultUser Reject.insufficientFunds (by with_unfolding_all decide)
    (by with_unfolding_all rfl)

/-- C4 counterexample: a coinflip with the invalid prediction "xyz" and a
valid bet of 100 is **not** rejected without mutation: the command reports a
processed (lost) game, the freshly created account's balance drops from 1000
to 900, a lost coinflip is recorded in the stats, and the coinflip cooldown
is armed — state mutates although the game parameter was invalid. -/
theorem c4_counterexample :
    (coinflip_command ((get_user emptyDB 1 1).2) 1 1 "xyz".data "100".data
        Coin.heads 0).1 = .ok false ∧
    (findUser (coinflip_command ((get_user emptyDB 1 1).2) 1 1 "xyz".data
        "100".data Coin.heads 0).2 1 1).map (·.balance) = some 900 ∧
    (coinflip_command ((get_user emptyDB 1 1).2) 1 1 "xyz".data "100".data
        Coin.heads 0).2.cooldowns = [((1, 1, "coinflip".data), 15)] ∧
    (coinflip_command ((get_user emptyDB 1 1).2) 1 1 "xyz".data "100".data
        Coin.heads 0).2.stats.map (fun p => (p.2.games_played, p.2.games_won))
      = [(1, 0)] := by
  refine ⟨?_, ?_, ?_, ?_⟩ <;> with_unfolding_all rfl

/-! ## Claim C7 — dice win conditions and multipliers -/

/-- C7: for every two-dice roll and every prediction string, `play_dice_roll`
wins exactly when the claim's condition holds ('high' iff sum ≥ 8, 'low' iff
sum ≤ 6, 'lucky7' iff sum = 7, a numeral `n` with 2 ≤ n ≤ 12 iff the sum
equals it) and pays the claim's multiplier (2 / 2 / 5 / the exact-match
table 35, 17, 11, 8, 6, 5) times the bet, losing with payout 0 in every
other case. -/
theorem c7_dice_outcomes (pred : List Char) (bet d1 d2 : ℕ)
    (_hd1 : 1 ≤ d1) (_hd1b : d1 ≤ 6) (_hd2 : 1 ≤ d2) (_hd2b : d2 ≤ 6) :
    (play_dice_roll pred bet d1 d2).won = claimDiceWins (pyLower pred) (d1 + d2) ∧
    (play_dice_roll pred bet d1 d2).amount_won =
      (if claimDiceWins (pyLower pred) (d1 + d2) then
        claimDiceMult (pyLower pred) * bet else 0) := by
  by_cases hhigh : pyLower pred = "high".data
  · by_cases h8 : 8 ≤ d1 + d2 <;>
      simp [play_dice_roll, claimDiceWins, claimDiceMult, hhigh, h8, Nat.mul_comm]
  · by_cases hlow : pyLower pred = "low".data
    · by_cases h6 : d1 + d2 ≤ 6 <;>
        simp [play_dice_roll, claimDiceWins, claimDiceMult, hhigh, hlow, h6, Nat.mul_comm]
    · by_cases hlucky : pyLower pred = "lucky7".data
      · by_cases h7 : d1 + d2 = 7 <;>
          simp [play_dice_roll, claimDiceWins, claimDiceMult, hhigh, hlow, hlucky, h7,
            Nat.mul_comm]
      · by_cases hdig : pyLower pred ≠ [] ∧ (pyLower pred).all Char.isDigit
        · by_cases hwin : 2 ≤ digitsVal (pyLower pred) ∧ digitsVal (pyLower pred) ≤ 12 ∧
              d1 + d2 = digitsVal (pyLower pred) <;>
            simp [play_dice_roll, claimDiceWins, claimDiceMult, hhigh, hlow, hlucky, hdig,
              hwin, Nat.mul_comm]
        · have hdig2 : ¬(¬pyLower pred = [] ∧ ∀ x ∈ pyLower pred, x.isDigit = true) := by
            simpa using hdig
          simp [play_dice_roll, claimDiceWins, claimDiceMult, hhigh, hlow, hlucky, hdig2]

/-- Witness for C7 at the roll 3+4 against the prediction "lucky7". -/
theorem c7_dice_outcomes_witness :
    (play_dice_roll "lucky7".data 10 3 4).won = claimDiceWins (pyLower "lucky7".data) (3 + 4) ∧
    (play_dice_roll "lucky7".data 10 3 4).amount_won =
      (if claimDiceWins (pyLower "lucky7".data) (3 + 4) then
        claimDiceMult (pyLower "lucky7".data) * 10 else 0) :=
  c7_dice_outcomes "lucky7".data 10 3 4 (by decide) (by decide) (by decide) (by decide)

/-! ## Claim C6 — the slots payout table -/

theorem ratFloor_natCast (n : ℕ) : ratFloor (n : ℚ) = n := by
  unfold ratFloor
  simp [Rat.num_natCast, Rat.den_natCast, Int.fdiv_one]

theorem calculate_payout_of_mult_nat (a b c : SlotSymbol) (bet k : ℕ)
    (hk : slotsMult a b c = (k : ℚ)) :
    (calculate_payout a b c bet).1 = k * bet := by
  unfold calculate_payout
  rw [hk]
  dsimp only
  cases k with
  | zero => simp
  | succ k =>
    have hpos : (0 : ℚ) < ((k + 1 : ℕ) : ℚ) := by positivity
    rw [if_pos hpos]
    have hcast : ((bet : ℚ)) * ((k + 1 : ℕ) : ℚ) = (((k + 1) * bet : ℕ) : ℚ) := by
      push_cast
      ring
    rw [hcast, ratFloor_natCast]
    omega

/-- C6: the slot multiplier agrees with the claim's table on every spin
(triples pay the symbol multiplier, exactly-two-of-a-kind pays 30% of the
paired symbol's multiplier, the fruit and premium sets pay flat 5 and 15 in
any order and only when no pair or triple applies, everything else pays 0),
and in particular three cherries pay 2× the bet, a diamond pair with a
cherry pays 6× the bet, and the fruit set in any order pays 5× the bet. -/
theorem c6_slots_payouts :
    (∀ a b c : SlotSymbol, ∀ bet : ℕ,
      (calculate_payout a b c bet).2 = claimSlotsMult a b c) ∧
    (∀ bet : ℕ, (calculate_payout .cherry .cherry .cherry bet).1 = 2 * bet) ∧
    (∀ bet : ℕ, (calculate_payout .diamond .diamond .cherry bet).1 = 6 * bet) ∧
    (∀ a b c : SlotSymbol, ∀ bet : ℕ,
      ({a, b, c} : Multiset SlotSymbol) = {.cherry, .lemon, .orange} →
      (calculate_payout a b c bet).1 = 5 * bet) := by
  have hmult : ∀ a b c : SlotSymbol, slotsMult a b c = claimSlotsMult a b c := by
    with_unfolding_all decide
  refine ⟨fun a b c bet => hmult a b c, ?_, ?_, ?_⟩
  · intro bet
    exact calculate_payout_of_mult_nat _ _ _ bet 2 (by with_unfolding_all decide)
  · intro bet
    exact calculate_payout_of_mult_nat _ _ _ bet 6 (by with_unfolding_all decide)
  · intro a b c bet hset
    refine calculate_payout_of_mult_nat _ _ _ bet 5 ?_
    have h5 : ∀ a b c : SlotSymbol,
        ({a, b, c} : Multiset SlotSymbol) = {.cherry, .lemon, .orange} →
        slotsMult a b c = (5 : ℚ) := by
      with_unfolding_all decide
    exact_mod_cast h5 a b c hset

/-- Witness for C6: the fruit set scrambled as lemon, cherry, orange pays
5× at bet 7. -/
theorem c6_slots_payouts_witness :
    (calculate_payout .lemon .cherry .orange 7).1 = 5 * 7 :=
  c6_slots_payouts.2.2.2 .lemon .cherry .orange 7 (by decide)

/-! ## Claim C5 — blackjack determinism and resolution -/

theorem handValue_of_blackjack {h : List Rank} (hh : isBlackjack h = true) :
    handValue h = 21 := by
  unfold isBlackjack at hh
  simp at hh
  exact hh.2

theorem resolve_equiv (player dealer : List Rank) (bet : ℕ) (hbet : 0 < bet) :
    resultOutcome (determine_winner player dealer bet) = claimResolve player dealer bet := by
  have hbz : bet ≠ 0 := Nat.pos_iff_ne_zero.mp hbet
  unfold determine_winner claimResolve resultOutcome isBust
  by_cases hpb : 21 < handValue player
  · simp [hpb]
  · by_cases hbjp : isBlackjack player = true
    · by_cases hbjd : isBlackjack dealer = true
      · have h21d := handValue_of_blackjack hbjd
        have hdb : ¬ 21 < handValue dealer := by omega
        simp [hpb, hbjp, hbjd, hdb, hbz]
      · by_cases hdb : 21 < handValue dealer
        · simp [hpb, hbjp, hbjd, hdb, Nat.mul_comm]
        · simp [hpb, hbjp, hbjd, hdb, Nat.mul_comm]
    · by_cases hdb : 21 < handValue dealer
      · simp [hpb, hbjp, hdb, Nat.mul_comm]
      · by_cases hgt : handValue dealer < handValue player
        · simp [hpb, hbjp, hdb, hgt, Nat.mul_comm]
        · by_cases hlt : handValue player < handValue dealer
          · have hne : ¬ handValue player = handValue dealer := by omega
            simp [hpb, hbjp, hdb, hgt, hlt, hne]
          · have heq : handValue player = handValue dealer := by omega
            simp [hpb, hbjp, hdb, hgt, hlt, heq, hbz]

/-- C5: on every deck order on which the game completes, the outcome of the
embedded `play_blackjack` — a pure function of the deck, hence fully
determined by it — classifies (win with its payout / push / loss) exactly as
the claim's procedure: the shared fixed hit policies (hit under 17 with the
soft-ace adjustment, dealer only when the player has not busted) followed by
the claim's resolution cascade with payouts ⌊2.5·bet⌋, 2·bet, and the stake
back on a push. -/
theorem c5_blackjack_resolution (deck : List Rank) (bet : ℕ) (hbet : 0 < bet) :
    (playBlackjack deck bet).map (fun t => resultOutcome t.2.2) = claimBlackjack deck bet := by
  unfold playBlackjack claimBlackjack
  cases h : dealHands deck with
  | none => rfl
  | some q =>
    simp only [Option.map]
    rw [resolve_equiv _ _ _ hbet]

/-- Witness for C5 on a concrete four-card deck (player 20, dealer 18). -/
theorem c5_blackjack_resolution_witness :
    (playBlackjack [.r10, .r9, .r10, .r9] 10).map (fun t => resultOutcome t.2.2)
      = claimBlackjack [.r10, .r9, .r10, .r9] 10 :=
  c5_blackjack_resolution [.r10, .r9, .r10, .r9] 10 (by decide)

/-! ## Claim C9 — the bet parser -/

theorem int_fdiv_one (z : ℤ) : z.fdiv 1 = z := by
  cases z with
  | ofNat n => cases n <;> simp [Int.fdiv]
  | negSucc n => simp [Int.fdiv]

theorem int_tdiv_one (z : ℤ) : z.tdiv 1 = z := by
  cases z with
  | ofNat n => simp [Int.tdiv]
  | negSucc n => simp [Int.tdiv, Int.negSucc_eq]

theorem ratFloor_intCast (z : ℤ) : ratFloor (z : ℚ) = z := by
  unfold ratFloor
  rw [Rat.num_intCast, Rat.den_intCast]
  exact_mod_cast int_fdiv_one z

theorem rhe_intCast (z : ℤ) : rhe (z : ℚ) = z := by
  unfold rhe
  rw [ratFloor_intCast]
  norm_num

theorem shiftDown_eq_zero (q : ℚ) (h : q < 2^53) : shiftDown q 4000 = 0 := by
  show shiftDown q (3999 + 1) = 0
  simp [shiftDown, h]

theorem roundPos_intCast (z : ℤ) (h : (z : ℚ) < 2^53) : roundPos (z : ℚ) = z := by
  unfold roundPos
  by_cases hbig : (2:ℚ)^52 ≤ (z : ℚ)
  · rw [if_pos hbig]
    dsimp only
    rw [shiftDown_eq_zero _ h]
    simp [rhe_intCast]
  · rw [if_neg hbig]
    dsimp only
    have hcast : (z : ℚ) * 2 ^ shiftUp (z : ℚ) 4000
        = ((z * 2 ^ shiftUp (z : ℚ) 4000 : ℤ) : ℚ) := by push_cast; ring
    rw [hcast, rhe_intCast]
    push_cast
    rw [mul_div_assoc, div_self (by positivity : ((2:ℚ) ^ shiftUp (z : ℚ) 4000) ≠ 0),
      mul_one]

theorem castQ_lt_of_abs_lt {z : ℤ} (h : |z| < 2^53) : (z : ℚ) < 2^53 := by
  have h1 : (z : ℚ) ≤ |(z : ℚ)| := le_abs_self _
  have h2 : |(z : ℚ)| = ((|z| : ℤ) : ℚ) := by push_cast; rfl
  have h3 : ((|z| : ℤ) : ℚ) < ((2^53 : ℤ) : ℚ) := by exact_mod_cast h
  calc (z : ℚ) ≤ |(z : ℚ)| := h1
    _ = ((|z| : ℤ) : ℚ) := h2
    _ < ((2^53 : ℤ) : ℚ) := h3
    _ = 2^53 := by norm_num

theorem roundDouble_intCast (z : ℤ) (h : |z| < 2^53) : roundDouble (z : ℚ) = z := by
  unfold roundDouble
  by_cases hneg : (z : ℚ) < 0
  · rw [if_pos hneg]
    have hz : ((-z : ℤ) : ℚ) = -(z : ℚ) := by push_cast; ring
    rw [← hz, roundPos_intCast (-z) (castQ_lt_of_abs_lt (by simpa using h))]
    push_cast
    ring
  · rw [if_neg hneg]
    by_cases hz0 : (z : ℚ) = 0
    · rw [if_pos hz0]
      exact_mod_cast hz0.symm
    · rw [if_neg hz0]
      exact roundPos_intCast z (castQ_lt_of_abs_lt h)

theorem pyTrunc_intCast (z : ℤ) : pyTrunc (z : ℚ) = z := by
  unfold pyTrunc
  rw [Rat.num_intCast, Rat.den_intCast]
  exact_mod_cast int_tdiv_one z

theorem pyMulTrunc_int (q : ℚ) (mult : ℕ) (hden : q.den = 1)
    (hm : 1 ≤ mult) (hb : |q.num| * mult < 2^53) :
    pyTrunc (pyMul (roundDouble q) (mult : ℚ)) = q.num * mult := by
  have hq : ((q.num : ℚ)) = q := (Rat.den_eq_one_iff q).mp hden
  have h1 : |q.num| < 2^53 := by
    have := le_mul_of_one_le_right (abs_nonneg q.num) (by exact_mod_cast hm : (1:ℤ) ≤ mult)
    omega
  have hr : roundDouble q = (q.num : ℚ) := by
    conv_lhs => rw [← hq]
    exact roundDouble_intCast _ h1
  unfold pyMul
  rw [hr]
  have hcast : (q.num : ℚ) * (mult : ℚ) = ((q.num * mult : ℤ) : ℚ) := by push_cast; ring
  have habs : |q.num * (mult : ℤ)| < 2^53 := by
    rw [abs_mul]
    simpa using hb
  rw [hcast, roundDouble_intCast _ habs, pyTrunc_intCast]

theorem pyParseInt_none_of_last {b : List Char} {c : Char}
    (hlast : b.getLast? = some c) (hc : c.isDigit = false) : pyParseInt b = none := by
  cases b with
  | nil => cases hlast
  | cons hd tl =>
    have hmem : c ∈ hd :: tl := List.mem_of_mem_getLast? (Option.mem_def.mpr hlast)
    have hnotall : ∀ (l : List Char), c ∈ l → ¬ (l.all Char.isDigit = true) := by
      intro l hcl hall
      have := List.all_eq_true.mp hall _ hcl
      rw [hc] at this
      cases this
    simp only [pyParseInt]
    by_cases hp : hd = '+'
    · rw [if_pos hp]
      cases tl with
      | nil =>
        simp
      | cons x xs =>
        have htl : (x :: xs).getLast? = some c := by
          rw [← List.getLast?_cons_cons (a := hd) (b := x) (l := xs)]
          exact hlast
        have hm2 := List.mem_of_mem_getLast? (Option.mem_def.mpr htl)
        simp [hnotall _ hm2]
    · rw [if_neg hp]
      by_cases hmns : hd = '-'
      · rw [if_pos hmns]
        cases tl with
        | nil =>
          simp
        | cons x xs =>
          have htl : (x :: xs).getLast? = some c := by
            rw [← List.getLast?_cons_cons (a := hd) (b := x) (l := xs)]
            exact hlast
          have hm2 := List.mem_of_mem_getLast? (Option.mem_def.mpr htl)
          simp [hnotall _ hm2]
      · rw [if_neg hmns]
        simp [hnotall _ hmem]


/-- C9 as amended: the bet parser returns the full balance for `all`/`max`,
⌊balance/2⌋ for `half`/`50%`, ⌊balance/4⌋ for `quarter`/`25%`; for `<n>%`
with converted value in [0, 100] it returns the binary64 truncation
`int(balance * (n/100))` — which can be one below the exact
⌊balance·n/100⌋ (see the counterexample) — for `<n>k` and `<n>m` with
integral `n` of double magnitude exactly `n·1000` and `n·1000000`
(decimal-fraction shorthands go through binary64 the same way the source
computes them); a literal integer parses to its value, and every other
input is a validation error.  Stated as: the parser equals the claim-side
grammar `claimParse` on the normalized input, for every input string and
balance. -/
theorem c9_bet_parser_amended (bet_input : List Char) (bal : ℤ) :
    parse_bet_amount bet_input bal = claimParse (pyStrip (pyLower bet_input)) bal := by
  unfold parse_bet_amount claimParse
  dsimp only
  by_cases h1 : pyStrip (pyLower bet_input) = "all".data ∨ pyStrip (pyLower bet_input) = "max".data
  · simp only [h1, if_true]
  · simp only [h1, if_false]
    by_cases h2 : pyStrip (pyLower bet_input) = "half".data ∨ pyStrip (pyLower bet_input) = "50%".data
    · simp only [h2, if_true]
    · simp only [h2, if_false]
      by_cases h3 : pyStrip (pyLower bet_input) = "quarter".data ∨ pyStrip (pyLower bet_input) = "25%".data
      · simp only [h3, if_true]
      · simp only [h3, if_false]
        by_cases h4 : lastIs (pyStrip (pyLower bet_input)) '%' = true
        · simp only [h4, if_true]
          have hint : pyParseInt (pyStrip (pyLower bet_input)) = none :=
            pyParseInt_none_of_last (by simpa [lastIs] using h4) (by decide)
          cases hf : pyParseFloat (pyStrip (pyLower bet_input)).dropLast with
          | none => simp only [hf]; exact hint
          | some q =>
            simp only [hf]
            by_cases hr : 0 ≤ roundDouble q ∧ roundDouble q ≤ 100
            · simp [hr]
            · simp only [hr, if_false]
              exact hint
        · simp only [h4, Bool.false_eq_true, if_false]
          by_cases h5 : lastIs (pyStrip (pyLower bet_input)) 'k' = true
          · simp only [h5, if_true]
            have hint : pyParseInt (pyStrip (pyLower bet_input)) = none :=
              pyParseInt_none_of_last (by simpa [lastIs] using h5) (by decide)
            cases hf : pyParseFloat (pyStrip (pyLower bet_input)).dropLast with
            | none => simp only [hf]; exact hint
            | some q =>
              simp only [hf]
              by_cases hden : q.den = 1 ∧ |q.num| * 1000 < 2^53
              · rw [if_pos hden]
                have hq : (1000 : ℚ) = ((1000 : ℕ) : ℚ) := by norm_num
                rw [hq, pyMulTrunc_int q 1000 hden.1 (by norm_num) hden.2]
                norm_num
              · rw [if_neg hden]
          · simp only [h5, Bool.false_eq_true, if_false]
            by_cases h6 : lastIs (pyStrip (pyLower bet_input)) 'm' = true
            · simp only [h6, if_true]
              have hint : pyParseInt (pyStrip (pyLower bet_input)) = none :=
                pyParseInt_none_of_last (by simpa [lastIs] using h6) (by decide)
              cases hf : pyParseFloat (pyStrip (pyLower bet_input)).dropLast with
              | none => simp only [hf]; exact hint
              | some q =>
                simp only [hf]
                by_cases hden : q.den = 1 ∧ |q.num| * 1000000 < 2^53
                · rw [if_pos hden]
                  have hq : (1000000 : ℚ) = ((1000000 : ℕ) : ℚ) := by norm_num
                  rw [hq, pyMulTrunc_int q 1000000 hden.1 (by norm_num) hden.2]
                  norm_num
                · rw [if_neg hden]
            · simp [h4, h5, h6]

/-- C9 counterexample: `parse_bet_amount("29%", balance=100)` returns 28,
while the claim's ⌊balance·n/100⌋ is ⌊100·29/100⌋ = 29: the binary64
product `100 * (29/100)` is 28.999999999999996…, truncated to 28. -/
theorem c9_percent_counterexample :
    parse_bet_amount "29%".data 100 = some 28 ∧ Int.fdiv (100 * 29) 100 = 29 := by
  constructor
  · with_unfolding_all decide
  · decide

/-! ## Claim C10 — leaderboard metric substitution -/

theorem mem_insertDesc {x y : ℤ × ℤ} {l : List (ℤ × ℤ)} :
    y ∈ insertDesc x l → y = x ∨ y ∈ l := by
  induction l with
  | nil => intro h; simpa [insertDesc] using h
  | cons z l ih =>
    intro h
    unfold insertDesc at h
    by_cases hz : z.2 < x.2
    · rw [if_pos hz] at h
      rcases List.mem_cons.mp h with rfl | h2
      · exact Or.inl rfl
      · exact Or.inr h2
    · rw [if_neg hz] at h
      rcases List.mem_cons.mp h with rfl | h2
      · exact Or.inr (List.mem_cons_self _ _)
      · rcases ih h2 with rfl | h3
        · exact Or.inl rfl
        · exact Or.inr (List.mem_cons_of_mem _ h3)

theorem pairwise_insertDesc {x : ℤ × ℤ} {l : List (ℤ × ℤ)}
    (h : l.Pairwise (fun a b => b.2 ≤ a.2)) :
    (insertDesc x l).Pairwise (fun a b => b.2 ≤ a.2) := by
  induction l with
  | nil => simp [insertDesc]
  | cons z l ih =>
    unfold insertDesc
    rcases List.pairwise_cons.mp h with ⟨hz, hl⟩
    by_cases hzx : z.2 < x.2
    · rw [if_pos hzx]
      refine List.pairwise_cons.mpr ⟨?_, h⟩
      intro b hb
      rcases List.mem_cons.mp hb with rfl | hb2
      · exact le_of_lt hzx
      · exact le_trans (hz b hb2) (le_of_lt hzx)
    · rw [if_neg hzx]
      refine List.pairwise_cons.mpr ⟨?_, ih hl⟩
      intro b hb
      rcases mem_insertDesc hb with rfl | hb2
      · exact not_lt.mp hzx
      · exact hz b hb2

theorem pairwise_sortDesc (l : List (ℤ × ℤ)) :
    (sortDesc l).Pairwise (fun a b => b.2 ≤ a.2) := by
  induction l with
  | nil => simp [sortDesc]
  | cons x l ih => exact pairwise_insertDesc ih

theorem length_insertDesc (x : ℤ × ℤ) (l : List (ℤ × ℤ)) :
    (insertDesc x l).length = l.length + 1 := by
  induction l with
  | nil => rfl
  | cons z l ih =>
    unfold insertDesc
    by_cases hz : z.2 < x.2
    · rw [if_pos hz]; rfl
    · rw [if_neg hz]; simp [ih]

theorem length_sortDesc (l : List (ℤ × ℤ)) : (sortDesc l).length = l.length := by
  induction l with
  | nil => rfl
  | cons x l ih => simp [sortDesc, length_insertDesc, ih]

/-- C10: `get_leaderboard` with a metric outside the whitelist does not fail
and does not produce an empty or error result because of the metric: it
returns exactly the balance leaderboard — the guild's accounts ordered by
cash balance descending (ties in stored order), truncated to `limit` — and
in particular a non-empty list whenever the guild has an account and the
limit is positive. -/
theorem c10_leaderboard_invalid_metric (db : DB) (gid : ℤ) (category : String)
    (limit : ℕ) (hcat : category ∉ validCategories) :
    get_leaderboard db gid category limit = get_leaderboard db gid "balance" limit ∧
    (get_leaderboard db gid category limit).Pairwise (fun a b => b.2 ≤ a.2) ∧
    (∀ p ∈ db.users, p.1.2 = gid → 0 < limit →
      get_leaderboard db gid category limit ≠ []) := by
  have hbal : ("balance" : String) ∈ validCategories := by
    simp [validCategories]
  have hsub : get_leaderboard db gid category limit
      = get_leaderboard db gid "balance" limit := by
    unfold get_leaderboard
    rw [if_neg hcat, if_pos hbal]
  refine ⟨hsub, ?_, ?_⟩
  · unfold get_leaderboard
    exact List.Pairwise.sublist (List.take_sublist _ _) (pairwise_sortDesc _)
  · intro p hp hgid hlim
    unfold get_leaderboard
    intro hempty
    have hmem : p ∈ db.users.filter (fun q => q.1.2 = gid) :=
      List.mem_filter.mpr ⟨hp, by simp [hgid]⟩
    have hpos : 0 < (db.users.filter (fun q => q.1.2 = gid)).length :=
      List.length_pos.mpr (List.ne_nil_of_mem hmem)
    have hlen := congrArg List.length hempty
    rw [List.length_take, length_sortDesc, List.length_map, List.length_nil] at hlen
    omega

/-- Witness for C10 at a store with one account in guild 1 and the metric
"bogus". -/
theorem c10_leaderboard_invalid_metric_witness :
    get_leaderboard ((get_user emptyDB 7 1).2) 1 "bogus" 10
        = get_leaderboard ((get_user emptyDB 7 1).2) 1 "balance" 10 ∧
    (get_leaderboard ((get_user emptyDB 7 1).2) 1 "bogus" 10).Pairwise
        (fun a b => b.2 ≤ a.2) ∧
    (∀ p ∈ ((get_user emptyDB 7 1).2).users, p.1.2 = 1 → 0 < 10 →
      get_leaderboard ((get_user emptyDB 7 1).2) 1 "bogus" 10 ≠ []) :=
  c10_leaderboard_invalid_metric ((get_user emptyDB 7 1).2) 1 "bogus" 10
    (by simp [validCategories])

/-! ## Claim C1 (amended) — non-negativity across the operation alphabet -/

theorem inv_of_users_eq {db1 db2 : DB} (h : db2.users = db1.users) (hi : Inv db1) :
    Inv db2 := by
  unfold Inv at *
  rw [h]
  exact hi

theorem inv_add_transaction {db : DB} {uid gid : ℤ} {t : List Char} {a : ℤ}
    {d : List Char} (hi : Inv db) : Inv (add_transaction db uid gid t a d) :=
  inv_of_users_eq rfl hi

theorem find?_append_of_none {α : Type} {l1 l2 : List α} {p : α → Bool}
    (h : l1.find? p = none) : (l1 ++ l2).find? p = l2.find? p := by
  induction l1 with
  | nil => rfl
  | cons x l ih =>
    cases hx : p x with
    | true => rw [List.find?_cons_of_pos _ hx] at h; cases h
    | false =>
      rw [List.find?_cons_of_neg _ (by simp [hx])] at h
      rw [List.cons_append, List.find?_cons_of_neg _ (by simp [hx])]
      exact ih h

theorem findUser_eq_none_iff {db : DB} {uid gid : ℤ} :
    findUser db uid gid = none ↔
      db.users.find? (fun p => p.1 = (uid, gid)) = none := by
  unfold findUser
  cases db.users.find? (fun p => p.1 = (uid, gid)) <;> simp

theorem get_user_self (db : DB) (uid gid : ℤ) :
    findUser (get_user db uid gid).2 uid gid = some (get_user db uid gid).1 := by
  unfold get_user
  cases h : findUser db uid gid with
  | some u => simpa using h
  | none =>
    have hf := findUser_eq_none_iff.mp h
    unfold findUser
    dsimp only
    rw [find?_append_of_none hf]
    simp [List.find?_cons]

theorem inv_get_user {db : DB} {uid gid : ℤ} (hi : Inv db) :
    Inv (get_user db uid gid).2 := by
  unfold get_user
  cases h : findUser db uid gid with
  | some u => exact hi
  | none =>
    have hf := findUser_eq_none_iff.mp h
    constructor
    · dsimp only
      rw [List.map_append]
      apply List.Nodup.append hi.1 (by simp)
      intro k hk1 hk2
      simp at hk2
      obtain ⟨p, hp, hpk⟩ := List.mem_map.mp hk1
      have hne := List.find?_eq_none.mp hf p hp
      simp at hne
      rw [hk2] at hpk
      exact hne hpk
    · intro p hp
      dsimp only at hp
      rcases List.mem_append.mp hp with h1 | h2
      · exact hi.2 p h1
      · have hpe : p = ((uid, gid), defaultUser) := by simpa using h2
        rw [hpe]
        exact ⟨by norm_num [defaultUser], by norm_num [defaultUser]⟩

theorem inv_updateUser {db : DB} {uid gid : ℤ} {f : UserRow → UserRow} (hi : Inv db)
    (hf : ∀ p ∈ db.users, p.1 = (uid, gid) →
      0 ≤ (f p.2).balance ∧ 0 ≤ (f p.2).crypto_balance) :
    Inv (updateUser db uid gid f) := by
  constructor
  · have hk := keys_map_update db.users (uid, gid) f
    unfold updateUser
    dsimp only
    rw [hk]
    exact hi.1
  · intro p hp
    unfold updateUser at hp
    dsimp only at hp
    obtain ⟨q, hq, hqe⟩ := List.mem_map.mp hp
    by_cases hk : q.1 = (uid, gid)
    · rw [if_pos hk] at hqe
      rw [← hqe]
      exact hf q hq hk
    · rw [if_neg hk] at hqe
      rw [← hqe]
      exact hi.2 q hq

theorem inv_updateUser_keepBal {db : DB} {uid gid : ℤ} {f : UserRow → UserRow}
    (hi : Inv db)
    (hf : ∀ u, (f u).balance = u.balance ∧ (f u).crypto_balance = u.crypto_balance) :
    Inv (updateUser db uid gid f) :=
  inv_updateUser hi (fun p hp _ => by
    rw [(hf p.2).1, (hf p.2).2]
    exact hi.2 p hp)

theorem inv_update_user_balance_credit {db : DB} {uid gid amount : ℤ} {ct : Currency}
    (hi : Inv db) (hamt : 0 ≤ amount) :
    Inv (update_user_balance db uid gid amount ct) := by
  unfold update_user_balance
  apply inv_add_transaction
  apply inv_updateUser hi
  intro p hp _
  have hps := hi.2 p hp
  cases ct with
  | balance => exact ⟨by simp [UserRow.addCurrency]; omega, by simpa [UserRow.addCurrency] using hps.2⟩
  | crypto_balance => exact ⟨by simpa [UserRow.addCurrency] using hps.1, by simp [UserRow.addCurrency]; omega⟩

theorem inv_update_user_balance_afford {db : DB} {uid gid amount : ℤ} {ct : Currency}
    {u : UserRow} (hi : Inv db) (hfind : findUser db uid gid = some u)
    (hle : amount ≤ u.getCurrency ct) :
    Inv (update_user_balance db uid gid (-amount) ct) := by
  unfold update_user_balance
  apply inv_add_transaction
  apply inv_updateUser hi
  intro p hp hk
  have hfp := find?_eq_of_mem_nodup hi.1 hp hk
  have hpu : p.2 = u := by
    unfold findUser at hfind
    rw [hfp] at hfind
    simpa using hfind
  have hps := hi.2 p hp
  rw [hpu]
  cases ct with
  | balance =>
    refine ⟨?_, by simpa [UserRow.addCurrency] using (hpu ▸ hps.2)⟩
    simp [UserRow.addCurrency]
    simp [UserRow.getCurrency] at hle
    omega
  | crypto_balance =>
    refine ⟨by simpa [UserRow.addCurrency] using (hpu ▸ hps.1), ?_⟩
    simp [UserRow.addCurrency]
    simp [UserRow.getCurrency] at hle
    omega

theorem can_afford_eq (db : DB) (uid gid amount : ℤ) (ct : Currency) :
    can_afford db uid gid amount ct
      = (decide (amount ≤ (get_user db uid gid).1.getCurrency ct), (get_user db uid gid).2) := rfl

theorem deduct_balance_eq (db : DB) (uid gid amount : ℤ) (ct : Currency) :
    deduct_balance db uid gid amount ct =
      if amount ≤ (get_user db uid gid).1.getCurrency ct then
        (true, update_user_balance (get_user db uid gid).2 uid gid (-amount) ct)
      else (false, (get_user db uid gid).2) := by
  unfold deduct_balance
  rw [can_afford_eq]
  by_cases hc : amount ≤ (get_user db uid gid).1.getCurrency ct
  · simp [hc]
  · simp [hc]

theorem inv_deduct_balance {db : DB} {uid gid amount : ℤ} {ct : Currency}
    (hi : Inv db) : Inv (deduct_balance db uid gid amount ct).2 := by
  rw [deduct_balance_eq]
  by_cases hc : amount ≤ (get_user db uid gid).1.getCurrency ct
  · rw [if_pos hc]
    exact inv_update_user_balance_afford (inv_get_user hi) (get_user_self db uid gid) hc
  · rw [if_neg hc]
    exact inv_get_user hi

theorem inv_transfer_money {db : DB} {fromUser toUser gid amount : ℤ}
    (hamt : 0 ≤ amount) (hi : Inv db) :
    Inv (transfer_money db fromUser toUser gid amount).2 := by
  unfold transfer_money
  rw [can_afford_eq]
  by_cases hc : amount ≤ (get_user db fromUser gid).1.getCurrency .balance
  · rw [decide_eq_true hc]
    dsimp only
    exact inv_add_transaction (inv_add_transaction
      (inv_update_user_balance_credit (inv_deduct_balance (inv_get_user hi)) hamt))
  · rw [decide_eq_false hc]
    dsimp only
    exact inv_get_user hi

theorem inv_send_command {db : DB} {fromUser toUser gid amount : ℤ} (hi : Inv db) :
    Inv (send_command db fromUser toUser gid amount).2 := by
  unfold send_command
  by_cases hneg : amount ≤ 0
  · rw [if_pos hneg]
    exact hi
  · rw [if_neg hneg]
    exact inv_transfer_money (by omega) hi

theorem users_update_game_stats (db : DB) (uid gid : ℤ) (g : List Char) (w : Bool)
    (b wa : ℕ) : (update_game_stats db uid gid g w b wa).users = db.users := by
  unfold update_game_stats
  cases db.stats.find? (fun p => p.1 = (uid, gid, g)) <;> rfl

theorem inv_process_game_result {db : DB} {uid gid : ℤ} {g : List Char}
    {bet : ℕ} {won : Bool} {win : ℕ} (hi : Inv db) :
    Inv (process_game_result db uid gid g bet won win).2 := by
  unfold process_game_result
  cases hd : deduct_balance db uid gid (bet : ℤ) .balance with
  | mk flag db1 =>
    have hi1 : Inv db1 := by
      have h : Inv (deduct_balance db uid gid (bet : ℤ) .balance).2 :=
        inv_deduct_balance hi
      rw [hd] at h
      exact h
    cases flag
    · exact hi1
    · dsimp only
      by_cases hw : won = true ∧ 0 < win
      · rw [if_pos hw]
        dsimp only
        have hi2 : Inv (add_balance db1 uid gid (win : ℤ) .balance) :=
          inv_update_user_balance_credit hi1 (by positivity)
        have hi3 : Inv (update_game_stats (add_balance db1 uid gid (win : ℤ) .balance)
            uid gid g won bet win) :=
          inv_of_users_eq (users_update_game_stats _ _ _ _ _ _ _) hi2
        cases won
        · cases hw.1
        · rw [if_pos rfl]
          exact inv_updateUser_keepBal hi3 (fun u => ⟨rfl, rfl⟩)
      · rw [if_neg hw]
        dsimp only
        have hi3 : Inv (update_game_stats db1 uid gid g won bet win) :=
          inv_of_users_eq (users_update_game_stats _ _ _ _ _ _ _) hi1
        cases won
        · rw [if_neg (by simp)]
          exact inv_updateUser_keepBal hi3 (fun u => ⟨rfl, rfl⟩)
        · rw [if_pos rfl]
          exact inv_updateUser_keepBal hi3 (fun u => ⟨rfl, rfl⟩)

theorem users_set_cooldown (db : DB) (uid gid : ℤ) (c : List Char) (now : ℤ) :
    ((set_cooldown db uid gid c now).2).users = db.users := by
  unfold set_cooldown db_set_cooldown
  cases cooldownDuration c <;> rfl

theorem users_db_check_cooldown (db : DB) (uid gid : ℤ) (c : List Char) (now : ℤ) :
    ((db_check_cooldown db uid gid c now).2).users = db.users := by
  unfold db_check_cooldown
  cases (db.cooldowns.find? (fun p => p.1 = (uid, gid, c))).map (·.2) with
  | none => rfl
  | some e =>
    dsimp only
    by_cases hlt : now < e
    · rw [if_pos hlt]
    · rw [if_neg hlt]

theorem inv_calculate_level_and_xp {db : DB} {uid gid : ℤ} {xp : ℕ} (hi : Inv db) :
    Inv (calculate_level_and_xp db uid gid xp).1 := by
  unfold calculate_level_and_xp
  cases findUser db uid gid with
  | none => exact hi
  | some u =>
    dsimp only
    exact inv_updateUser_keepBal hi (fun v => ⟨rfl, rfl⟩)

theorem inv_game_process {db : DB} {uid gid : ℤ} {g : List Char} {bet : ℕ}
    {r : GameResult} {cd : Bool} {now : ℤ} (hi : Inv db) :
    Inv (game_process db uid gid g bet r cd now).2 := by
  unfold game_process
  cases hp : process_game_result db uid gid g bet r.won r.amount_won with
  | mk res db1 =>
    have hi1 : Inv db1 := by
      have h : Inv (process_game_result db uid gid g bet r.won r.amount_won).2 :=
        inv_process_game_result hi
      rw [hp] at h
      exact h
    cases res with
    | none => exact hi1
    | some t =>
      dsimp only
      have hi2 : Inv (if cd = true then (set_cooldown db1 uid gid g now).2 else db1) := by
        by_cases hcd : cd = true
        · rw [if_pos hcd]
          exact inv_of_users_eq (users_set_cooldown _ _ _ _ _) hi1
        · rw [if_neg hcd]
          exact hi1
      exact inv_calculate_level_and_xp hi2

theorem inv_validate_bet {db : DB} {uid gid : ℤ} {bi g : List Char} {now : ℤ}
    (hi : Inv db) : Inv (validate_bet db uid gid bi g now).2 := by
  unfold validate_bet get_user_balance
  dsimp only
  have hi1 : Inv (get_user db uid gid).2 := inv_get_user hi
  cases parse_bet_amount bi (get_user db uid gid).1.balance with
  | none => exact hi1
  | some bet =>
    dsimp only
    by_cases hmin : bet < minBet g
    · rw [if_pos hmin]
      exact hi1
    · rw [if_neg hmin]
      by_cases hbal : (get_user db uid gid).1.balance < bet
      · rw [if_pos hbal]
        exact hi1
      · rw [if_neg hbal]
        cases hc : db_check_cooldown (get_user db uid gid).2 uid gid g now with
        | mk rem db2 =>
          have hi2 : Inv db2 := by
            refine inv_of_users_eq ?_ hi1
            have h := users_db_check_cooldown (get_user db uid gid).2 uid gid g now
            rw [hc] at h
            exact h
          cases rem with
          | none => exact hi2
          | some x => exact hi2

theorem inv_coinflip_command {db : DB} {uid gid : ℤ} {pred bi : List Char}
    {flip : Coin} {now : ℤ} (hi : Inv db) :
    Inv (coinflip_command db uid gid pred bi flip now).2 := by
  unfold coinflip_command
  cases hv : validate_bet db uid gid bi "coinflip".data now with
  | mk res db1 =>
    have hi1 : Inv db1 := by
      have h : Inv (validate_bet db uid gid bi "coinflip".data now).2 :=
        inv_validate_bet hi
      rw [hv] at h
      exact h
    cases res with
    | error r => exact hi1
    | ok bet =>
      dsimp only
      cases hg : game_process db1 uid gid "coinflip".data bet
          (play_coinflip pred bet flip) true now with
      | mk ok2 db2 =>
        have h : Inv (game_process db1 uid gid "coinflip".data bet
            (play_coinflip pred bet flip) true now).2 :=
          inv_game_process hi1
        rw [hg] at h
        exact h

theorem inv_claimDailyGrant {db : DB} {uid gid now : ℤ} {rnd cr : ℕ} {u : UserRow}
    (hi : Inv db) :
    Inv (claim_daily_reward.claimDailyGrant db uid gid now rnd cr u).2 := by
  unfold claim_daily_reward.claimDailyGrant
  dsimp only
  have hi1 : Inv (update_user_balance db uid gid
      ((100 + u.level * 10 + min (1 * 25) 500 + rnd : ℕ) : ℤ) .balance) :=
    inv_update_user_balance_credit hi (by positivity)
  have hi2 : Inv (if 0 < cr then
      update_user_balance (update_user_balance db uid gid
        ((100 + u.level * 10 + min (1 * 25) 500 + rnd : ℕ) : ℤ) .balance) uid gid
        (cr : ℤ) .crypto_balance
    else update_user_balance db uid gid
        ((100 + u.level * 10 + min (1 * 25) 500 + rnd : ℕ) : ℤ) .balance) := by
    by_cases hcr : 0 < cr
    · rw [if_pos hcr]
      exact inv_update_user_balance_credit hi1 (by positivity)
    · rw [if_neg hcr]
      exact hi1
  exact inv_updateUser_keepBal hi2 (fun v => ⟨rfl, rfl⟩)

theorem inv_claim_daily_reward {db : DB} {uid gid now : ℤ} {rnd cr : ℕ}
    (hi : Inv db) : Inv (claim_daily_reward db uid gid now rnd cr).2 := by
  unfold claim_daily_reward
  dsimp only
  have hi1 : Inv (get_user db uid gid).2 := inv_get_user hi
  cases (get_user db uid gid).1.last_daily with
  | none => exact inv_claimDailyGrant hi1
  | some t =>
    dsimp only
    by_cases hlt : now - t < 20 * 3600
    · rw [if_pos hlt]
      exact hi1
    · rw [if_neg hlt]
      exact inv_claimDailyGrant hi1

theorem inv_claim_weekly_reward {db : DB} {uid gid now : ℤ} {cr : ℕ}
    (hi : Inv db) : Inv (claim_weekly_reward db uid gid now cr).2 := by
  unfold claim_weekly_reward
  dsimp only
  have hi1 : Inv (get_user db uid gid).2 := inv_get_user hi
  have hgrant : ∀ db2 : DB, Inv db2 →
      Inv (updateUser (update_user_balance (update_user_balance db2 uid gid
        ((1000 + (get_user db uid gid).1.level * 50 +
          min ((get_user db uid gid).1.games_played * 5) 2000 : ℕ) : ℤ) .balance)
        uid gid (cr : ℤ) .crypto_balance) uid gid
        (fun u => { u with last_weekly := some now })) := by
    intro db2 hi2
    exact inv_updateUser_keepBal
      (inv_update_user_balance_credit
        (inv_update_user_balance_credit hi2 (by positivity)) (by positivity))
      (fun v => ⟨rfl, rfl⟩)
  cases (get_user db uid gid).1.last_weekly with
  | none => exact hgrant _ hi1
  | some t =>
    dsimp only
    by_cases hlt : now - t < 7 * 86400
    · rw [if_pos hlt]
      exact hi1
    · rw [if_neg hlt]
      exact hgrant _ hi1

theorem inv_claim_monthly_reward {db : DB} {uid gid now : ℤ} {cr : ℕ}
    (hi : Inv db) : Inv (claim_monthly_reward db uid gid now cr).2 := by
  unfold claim_monthly_reward
  dsimp only
  have hi1 : Inv (get_user db uid gid).2 := inv_get_user hi
  cases (get_user db uid gid).1.last_monthly with
  | none =>
    exact inv_updateUser_keepBal
      (inv_update_user_balance_credit
        (inv_update_user_balance_credit hi1 (by positivity)) (by positivity))
      (fun v => ⟨rfl, rfl⟩)
  | some t =>
    dsimp only
    by_cases hlt : now - t < 30 * 86400
    · rw [if_pos hlt]
      exact hi1
    · rw [if_neg hlt]
      exact inv_updateUser_keepBal
        (inv_update_user_balance_credit
          (inv_update_user_balance_credit hi1 (by positivity)) (by positivity))
        (fun v => ⟨rfl, rfl⟩)

theorem inv_claim_work_reward {db : DB} {uid gid now : ℤ} {base bonus : ℕ}
    (hi : Inv db) : Inv (claim_work_reward db uid gid now base bonus).2 := by
  unfold claim_work_reward
  dsimp only
  have hi1 : Inv (get_user db uid gid).2 := inv_get_user hi
  cases (get_user db uid gid).1.last_work with
  | none =>
    exact inv_updateUser_keepBal
      (inv_update_user_balance_credit hi1 (by positivity)) (fun v => ⟨rfl, rfl⟩)
  | some t =>
    dsimp only
    by_cases hlt : now - t < 4 * 3600
    · rw [if_pos hlt]
      exact hi1
    · rw [if_neg hlt]
      exact inv_updateUser_keepBal
        (inv_update_user_balance_credit hi1 (by positivity)) (fun v => ⟨rfl, rfl⟩)

theorem users_add_user_item (db : DB) (uid gid : ℤ) (it : List Char) (q : ℤ) :
    (add_user_item db uid gid it q).users = db.users := by
  unfold add_user_item
  cases db.items.find? (fun p => p.1 = (uid, gid, it)) <;> rfl

theorem users_remove_user_item (db : DB) (uid gid : ℤ) (it : List Char) (q : ℤ) :
    ((remove_user_item db uid gid it q).2).users = db.users := by
  unfold remove_user_item
  cases db.items.find? (fun p => p.1 = (uid, gid, it)) with
  | none => rfl
  | some p =>
    dsimp only
    by_cases h1 : p.2 < q
    · rw [if_pos h1]
    · rw [if_neg h1]
      by_cases h2 : p.2 - q ≤ 0
      · rw [if_pos h2]
      · rw [if_neg h2]

theorem inv_purchase_item {db : DB} {uid gid : ℤ} {it : List Char} {q : ℤ}
    (hi : Inv db) : Inv (purchase_item db uid gid it q).2 := by
  unfold purchase_item
  cases getShopItem it with
  | none => exact hi
  | some item =>
    dsimp only
    by_cases hmax : 0 < item.max_quantity ∧
        item.max_quantity < inventoryQty db uid gid it + q
    · rw [if_pos hmax]
      exact hi
    · rw [if_neg hmax]
      by_cases hafford : (get_user db uid gid).1.getCurrency item.currency_type
          < (item.price : ℤ) * q
      · rw [if_pos hafford]
        exact inv_get_user hi
      · rw [if_neg hafford]
        refine inv_of_users_eq (users_add_user_item _ _ _ _ _) ?_
        exact inv_update_user_balance_afford (inv_get_user hi)
          (get_user_self db uid gid) (not_lt.mp hafford)

theorem inv_buy_command {db : DB} {uid gid : ℤ} {it : List Char} {q : ℤ}
    (hi : Inv db) : Inv (buy_command db uid gid it q).2 := by
  unfold buy_command
  by_cases hq : q ≤ 0
  · rw [if_pos hq]
    exact hi
  · rw [if_neg hq]
    exact inv_purchase_item hi

theorem inv_sell_item {db : DB} {uid gid : ℤ} {it : List Char} {q : ℤ}
    (hq : 0 ≤ q) (hi : Inv db) : Inv (sell_item db uid gid it q).2 := by
  unfold sell_item
  cases getShopItem it with
  | none => exact hi
  | some item =>
    dsimp only
    by_cases hinv : inventoryQty db uid gid it < q
    · rw [if_pos hinv]
      exact hi
    · rw [if_neg hinv]
      refine inv_update_user_balance_credit
        (inv_of_users_eq (users_remove_user_item _ _ _ _ _) hi) ?_
      exact mul_nonneg (by positivity) hq

theorem inv_sell_command {db : DB} {uid gid : ℤ} {it : List Char} {q : ℤ}
    (hi : Inv db) : Inv (sell_command db uid gid it q).2 := by
  unfold sell_command
  by_cases hq : q ≤ 0
  · rw [if_pos hq]
    exact hi
  · rw [if_neg hq]
    exact inv_sell_item (by omega) hi

theorem inv_give_money {db : DB} {uid gid amount : ℤ} {ct : Currency}
    (hi : Inv db) : Inv (give_money db uid gid amount ct).2 := by
  unfold give_money
  by_cases hamt : amount ≤ 0
  · rw [if_pos hamt]
    exact hi
  · rw [if_neg hamt]
    exact inv_add_transaction (inv_update_user_balance_credit hi (by omega))

theorem inv_take_money {db : DB} {uid gid amount : ℤ} {ct : Currency}
    (hi : Inv db) : Inv (take_money db uid gid amount ct).2 := by
  unfold take_money
  by_cases hamt : amount ≤ 0
  · rw [if_pos hamt]
    exact hi
  · rw [if_neg hamt]
    dsimp only
    by_cases hafford : (get_user db uid gid).1.getCurrency ct < amount
    · rw [if_pos hafford]
      exact inv_get_user hi
    · rw [if_neg hafford]
      exact inv_add_transaction (inv_update_user_balance_afford (inv_get_user hi)
        (get_user_self db uid gid) (not_lt.mp hafford))

theorem inv_applyOp {db : DB} (op : Op) (hi : Inv db) : Inv (applyOp db op) := by
  cases op with
  | getUser uid gid => exact inv_get_user hi
  | send f t g a => exact inv_send_command hi
  | game uid gid g b w won => exact inv_process_game_result hi
  | coinflipOp uid gid p b f now => exact inv_coinflip_command hi
  | daily uid gid now r c => exact inv_claim_daily_reward hi
  | weekly uid gid now c => exact inv_claim_weekly_reward hi
  | monthly uid gid now c => exact inv_claim_monthly_reward hi
  | work uid gid now b bo => exact inv_claim_work_reward hi
  | buy uid gid it q => exact inv_buy_command hi
  | sellOp uid gid it q => exact inv_sell_command hi
  | give uid gid a ct => exact inv_give_money hi
  | take uid gid a ct => exact inv_take_money hi
  | levelXp uid gid xp => exact inv_calculate_level_and_xp hi
  | armCooldown uid gid c now =>
    exact inv_of_users_eq (users_set_cooldown _ _ _ _ _) hi
  | pollCooldown uid gid c now =>
    exact inv_of_users_eq (users_db_check_cooldown _ _ _ _ _) hi

/-- C1 as amended: `update_user_balance` itself applies any delta (see the
counterexample), but along the repository's command-level operations — lazy
account creation, `/send`, game settlement, the coinflip command,
daily/weekly/monthly/work reward claims, `/buy`, `/sell`, admin
give/take, XP updates and cooldown reads/writes — every debit is guarded by
an affordability check, so from any store satisfying the invariant, any
sequence of operations keeps every stored cash and premium balance
non-negative. -/
theorem c1_nonnegative_invariant (db : DB) (ops : List Op) (hi : Inv db) :
    Inv (ops.foldl applyOp db) ∧
    ∀ p ∈ (ops.foldl applyOp db).users, 0 ≤ p.2.balance ∧ 0 ≤ p.2.crypto_balance := by
  have hfold : Inv (ops.foldl applyOp db) := by
    induction ops generalizing db with
    | nil => exact hi
    | cons op ops ih => exact ih _ (inv_applyOp op hi)
  exact ⟨hfold, hfold.2⟩

/-- Witness for C1: starting from the empty store, a concrete operation
sequence (account creation, a lost coinflip wager via the full command, a
daily claim, a transfer) preserves the invariant. -/
theorem c1_nonnegative_invariant_witness :
    Inv ([Op.getUser 1 1,
          Op.coinflipOp 1 1 "tails".data "half".data Coin.heads 0,
          Op.daily 1 1 0 3 0,
          Op.send 1 2 1 200].foldl applyOp emptyDB) :=
  (c1_nonnegative_invariant emptyDB _
    ⟨List.nodup_nil, fun p hp => absurd hp (List.not_mem_nil p)⟩).1

end GamblingBot
